import Mathlib

/-!
Chord DHT node (`chord/node.go`): shallow embedding and verified properties.

The Go actor `ChordNode` is embedded as a pure transition function
`Receive : Context → ChordNode → Msg → Option (ChordNode × List Effect)`.

Modelling conventions
* `*big.Int` is `Option Int` (`none` is the nil pointer); `Cmp` is the order of `Int`.
* `*actor.PID` is `Option PID` where a `PID` is an abstract address; the Go code compares
  PIDs with `==`, which is identity of the address.
* `*NodeInfo` is `Option NodeInfo`. A `NodeInfo` is written once (in `Started`) and only read
  afterwards, so sharing a pointer and copying the value agree.
* A run-time panic (nil dereference, index out of range) is the result `none`.
* Messages handed to the transport are collected, in program order, in a list of `Effect`s.
  Console output (`fmt.Printf`) is not recorded, but the nil dereferences made while
  evaluating its arguments are.
* Runs of one actor are `handleAll`; the two-actor scenario of `main.go` is `TwoNodes` with
  the messages in flight, delivered in an arbitrary order by `drain`.
-/

namespace Chord

/-- Number of identifier bits, the constant `mBits`. -/
def mBits : Nat := 160

/-- Abstract transport address behind a `*actor.PID`. -/
abbrev PID := Nat

/-- The Go struct `NodeInfo`: address and identifier, both pointers. -/
structure NodeInfo where
  PID : Option PID
  ID : Option Int
deriving DecidableEq, Repr

/-- The message structs of `node.go`; `Started` is `*actor.Started` and `Other` stands for
any message type that no `case` of the type switch matches. -/
inductive Msg where
  | Started
  | Join (ExistingNode : Option PID)
  | FindSuccessor (Key : Option Int) (Requester : Option PID)
  | FoundSuccessor (Successor : Option NodeInfo)
  | GetPredecessor
  | GetPredecessorResponse (Predecessor : Option NodeInfo)
  | Notify (Node : Option NodeInfo)
  | Stabilize
  | Lookup (Key : Option Int)
  | Store (Key : Option Int) (Value : String)
  | GetValue (Key : Option Int) (Requester : Option PID)
  | GetValueResponse (Key : Option Int) (Value : String) (Found : Bool)
  | GetSuccessor
  | GetSuccessorResponse (Successor : Option NodeInfo)
  | Other
deriving DecidableEq, Repr

/-- What a handler asks the transport to do. `send` is `Send`, `request` is `ctx.Request`
(the sender is the handling actor), `requestWithCustomSender` carries its explicit sender,
`respond` is `ctx.Respond` (a reply to `ctx.Sender()`), and `startTicker` is the goroutine
launched by `Started` that posts `Stabilize` to the given address every five seconds. -/
inductive Effect where
  | send (target : Option PID) (msg : Msg)
  | request (target : Option PID) (msg : Msg)
  | requestWithCustomSender (target : Option PID) (msg : Msg) (sender : Option PID)
  | respond (msg : Msg)
  | startTicker (target : Option PID)
deriving DecidableEq, Repr

/-- The part of `actor.Context` the handlers read: `ctx.Self()`. -/
structure Context where
  Self : PID
deriving DecidableEq, Repr

/-- The Go struct `ChordNode`. `self` is allocated by `NewChordNode` and never reassigned, so
it is not optional. `storage` is the Go `map[string]string` as a lookup function. The
`context` field (the transport handle) carries no data and is left out. `nextFinger` is a Go
`int`. -/
structure ChordNode where
  self : NodeInfo
  successor : Option NodeInfo
  predecessor : Option NodeInfo
  fingers : List (Option NodeInfo)
  nextFinger : Int
  storage : String → Option String
  successorList : List (Option NodeInfo)

/-- The actor produced by `NewChordNode(id, context)`. -/
def NewChordNode (id : Option Int) : ChordNode :=
  { self := { PID := none, ID := id }
    successor := none
    predecessor := none
    fingers := List.replicate mBits none
    nextFinger := 0
    storage := fun _ => none
    successorList := [] }

/-- The function `between(left, elem, right)`. -/
def between (left elem right : Option Int) : Bool :=
  match left, elem, right with
  | some l, some e, some r =>
    if r > l then decide (e > l) && decide (e ≤ r)
    else decide (e > l) || decide (e ≤ r)
  | _, _, _ => false

/-- The loop of `closestPrecedingNode`: `closestPrecedingLoop n key k` runs the iterations
`i = k-1, k-2, ..., 0` and then the final `return n.successor`. Reading `n.fingers[i]`
outside the slice panics. -/
def closestPrecedingLoop (n : ChordNode) (key : Option Int) : Nat → Option (Option NodeInfo)
  | 0 => some n.successor
  | i + 1 =>
    match n.fingers[i]? with
    | none => none
    | some f =>
      match f with
      | some fi =>
        if between n.self.ID fi.ID key then some (some fi)
        else closestPrecedingLoop n key i
      | none => closestPrecedingLoop n key i

/-- The method `closestPrecedingNode(key)`: the loop starts at `i = mBits - 1`. -/
def closestPrecedingNode (n : ChordNode) (key : Option Int) : Option (Option NodeInfo) :=
  closestPrecedingLoop n key mBits

/-- The method `findSuccessor(key)`. -/
def findSuccessor (n : ChordNode) (key : Option Int) : Option (Option NodeInfo) :=
  match n.successor with
  | none => some none
  | some succ =>
    if between n.self.ID key succ.ID then some (some succ)
    else
      match closestPrecedingNode n key with
      | none => none
      | some none => some (some succ)
      | some (some next) =>
        if next.PID = n.self.PID then some (some succ) else some (some next)

/-- Two's-complement wrap-around of a Go `int` (64 bits). -/
def wrapInt (x : Int) : Int := (x + 2 ^ 63) % 2 ^ 64 - 2 ^ 63

/-- The method `fixFingers()`. Go's `%` on `int` truncates towards zero (`Int.tmod`),
`big.Int.Exp` with a non-positive exponent yields 1, `big.Int.Add` dereferences `n.self.ID`,
`big.Int.Mod` is the Euclidean modulus, and the slice store panics outside the slice. -/
def fixFingers (n : ChordNode) : Option ChordNode :=
  let nextFinger := Int.tmod (wrapInt (n.nextFinger + 1)) (mBits : Int)
  let n1 := { n with nextFinger := nextFinger }
  match n1.self.ID with
  | none => none
  | some selfID =>
    let fingerKey := (selfID + 2 ^ nextFinger.toNat) % 2 ^ mBits
    match findSuccessor n1 (some fingerKey) with
    | none => none
    | some found =>
      if 0 ≤ nextFinger ∧ nextFinger.toNat < n1.fingers.length then
        some { n1 with fingers := n1.fingers.set nextFinger.toNat found }
      else none

/-- The method `(*big.Int).String()`: decimal digits, and `<nil>` for the nil pointer. -/
def bigString : Option Int → String
  | none => "<nil>"
  | some k => toString k

/-- The method `Receive(ctx)`, one handled message. -/
def Receive (ctx : Context) (n : ChordNode) : Msg → Option (ChordNode × List Effect)
  | .Started =>
    let self1 : NodeInfo := { n.self with PID := some ctx.Self }
    let n1 := { n with self := self1 }
    let n2 := if n1.successor = none then { n1 with successor := some self1 } else n1
    some (n2, [.startTicker self1.PID])
  | .Join existing =>
    some (n, [.request existing (.FindSuccessor n.self.ID (some ctx.Self))])
  | .FindSuccessor key requester =>
    match n.successor with
    | none => some (n, [.send requester (.FoundSuccessor (some n.self))])
    | some succ =>
      if between n.self.ID key succ.ID then
        some (n, [.send requester (.FoundSuccessor (some succ))])
      else
        match closestPrecedingNode n key with
        | none => none
        | some (some next) => some (n, [.request next.PID (.FindSuccessor key requester)])
        | some none => some (n, [.send requester (.FoundSuccessor (some succ))])
  | .FoundSuccessor s =>
    match s with
    | none => none
    | some _ => some ({ n with successor := s }, [])
  | .GetPredecessor => some (n, [.respond (.GetPredecessorResponse n.predecessor)])
  | .GetPredecessorResponse p =>
    match n.successor with
    | none => none
    | some succ =>
      let newSucc : NodeInfo :=
        match p with
        | some pi => if between n.self.ID pi.ID succ.ID then pi else succ
        | none => succ
      some ({ n with successor := some newSucc, successorList := [some newSucc] },
            [.send newSucc.PID (.Notify (some n.self))])
  | .Notify node =>
    match n.predecessor with
    | none => some ({ n with predecessor := node }, [])
    | some pred =>
      match node with
      | none => none
      | some nd =>
        if between pred.ID nd.ID n.self.ID then some ({ n with predecessor := node }, [])
        else some (n, [])
  | .Stabilize =>
    match n.successor with
    | none => some (n, [])
    | some succ =>
      match fixFingers n with
      | none => none
      | some n1 =>
        some (n1, [.requestWithCustomSender succ.PID .GetPredecessor (some ctx.Self),
                   .requestWithCustomSender succ.PID .GetSuccessor (some ctx.Self)])
  | .Lookup key =>
    match findSuccessor n key with
    | none => none
    | some none => some (n, [])
    | some (some succ) => some (n, [.send succ.PID (.GetValue key (some ctx.Self))])
  | .Store key value =>
    match findSuccessor n key with
    | none => none
    | some none => none
    | some (some succ) =>
      if succ.PID = n.self.PID then
        some ({ n with storage := fun k => if k = bigString key then some value
                                           else n.storage k }, [])
      else some (n, [.send succ.PID (.Store key value)])
  | .GetValue key requester =>
    match n.storage (bigString key) with
    | some value => some (n, [.send requester (.GetValueResponse key value true)])
    | none => some (n, [.send requester (.GetValueResponse key "" false)])
  | .GetValueResponse _ _ _ => some (n, [])
  | .GetSuccessor => some (n, [.respond (.GetSuccessorResponse n.successor)])
  | .GetSuccessorResponse s =>
    let l := n.successorList ++ [s]
    some ({ n with successorList := if l.length > 5 then l.take 5 else l }, [])
  | .Other => some (n, [])

/-! ## Concrete nodes used to exercise the theorems -/

/-- A node reference with address 1 and identifier 10. -/
def refTen : NodeInfo := { PID := some 1, ID := some 10 }

/-- A node reference with address 2 and identifier 20. -/
def refTwenty : NodeInfo := { PID := some 2, ID := some 20 }

/-- A node reference with address 3 and identifier 40. -/
def refForty : NodeInfo := { PID := some 3, ID := some 40 }

/-- A node reference with address 4 and identifier 30. -/
def refThirty : NodeInfo := { PID := some 4, ID := some 30 }

/-- Node 10 with successor 20 and two fingers set: slot 3 holds node 40, slot 7 node 30. -/
def routedNode : ChordNode :=
  { self := refTen
    successor := some refTwenty
    predecessor := none
    fingers := ((List.replicate mBits none).set 3 (some refForty)).set 7 (some refThirty)
    nextFinger := 0
    storage := fun _ => none
    successorList := [] }

/-- Node 10 alone in its ring: its successor is itself and no finger is set. -/
def singletonNode : ChordNode :=
  { self := refTen
    successor := some refTen
    predecessor := none
    fingers := List.replicate mBits none
    nextFinger := 0
    storage := fun _ => none
    successorList := [] }

/-- The node `routedNode` about to refresh its last finger slot: `nextFinger` is 158. -/
def lastSlotNode : ChordNode := { routedNode with nextFinger := 158 }

/-- Handling a sequence of messages one after the other, as the actor's mailbox does; the
run stops with `none` at the first handler that panics. -/
def handleAll (ctx : Context) (n : ChordNode) : List Msg → Option ChordNode
  | [] => some n
  | m :: ms =>
    match Receive ctx n m with
    | none => none
    | some (n1, _) => handleAll ctx n1 ms

/-- Node 10 after it refreshed finger slot 1 while alone (the slot holds the node itself)
and then learnt of its successor 20. -/
def staleFingerNode : ChordNode :=
  { self := refTen
    successor := some refTwenty
    predecessor := none
    fingers := (List.replicate mBits none).set 1 (some refTen)
    nextFinger := 1
    storage := fun _ => none
    successorList := [some refTwenty] }

/-- The value of `Hash("key1")`: the SHA-1 digest of the string read as a big-endian
integer. -/
def hashKey1 : Int := 93923371272566643350282037677517412072537625383

/-- The value of `Hash("bootstrap")`, the identifier of the bootstrap node of `main.go`. -/
def hashBootstrap : Int := 345077253706843457170344133154116241786885675549

/-- The bootstrap node of `main.go` once started at address 1: its successor is itself. -/
def bootstrapNode : ChordNode :=
  { self := { PID := some 1, ID := some hashBootstrap }
    successor := some { PID := some 1, ID := some hashBootstrap }
    predecessor := none
    fingers := List.replicate mBits none
    nextFinger := 0
    storage := fun _ => none
    successorList := [] }

/-- The node `routedNode` with predecessor 5: key 8 lies in its own arc `(5, 10]`. -/
def responsibleNode : ChordNode :=
  { routedNode with predecessor := some { PID := some 5, ID := some 5 } }

/-- A message whose node-reference payload is present: `FoundSuccessor.Successor` and
`Notify.Node` are not nil. Every other message qualifies. -/
def payloadPresent : Msg → Bool
  | .FoundSuccessor none => false
  | .Notify none => false
  | _ => true

/-- The conditions under which no handler panics: the successor is set, the finger table
has `mBits` slots, `nextFinger` indexes it, and the node's own identifier is `id`. -/
def Healthy (id : Int) (n : ChordNode) : Prop :=
  n.successor ≠ none ∧ n.fingers.length = mBits ∧ 0 ≤ n.nextFinger
    ∧ n.nextFinger < (mBits : Int) ∧ n.self.ID = some id

/-- The successor is set and the successor list starts with it. -/
def HeadIsSuccessor (n : ChordNode) : Prop :=
  ∃ s, n.successor = some s ∧ n.successorList.head? = some (some s)

/-- Node 10 after `Started` and six `GetSuccessorResponse` messages reporting node 20: the
successor list holds five entries. -/
def crowdedNode : ChordNode :=
  { singletonNode with
    successorList := [some refTwenty, some refTwenty, some refTwenty, some refTwenty,
                      some refTwenty] }

/-- Node 10 after `Started`, a `Stabilize` tick, the adoption of successor 20, a `Notify`
from node 40 and a `Lookup`: one run of messages with present payloads. -/
def busyRun : List Msg :=
  [.Stabilize, .FoundSuccessor (some refTwenty), .Notify (some refForty),
   .Store (some 5) "v", .GetPredecessorResponse none, .Lookup (some 7)]

/-- The run in which node 10 stores key 15 while alone and then, through one stabilization
round with node 20, gets node 20 as predecessor and as successor. -/
def orphanRun : List Msg :=
  [.Started, .Store (some 15) "v", .Notify (some refTwenty),
   .GetPredecessorResponse (some refTwenty)]

/-- The node reached by `orphanRun`: key 15 is in its storage although it lies outside
the arc `(20, 10]` and the successor is node 20. -/
def orphanKeyNode : ChordNode :=
  { self := refTen
    successor := some refTwenty
    predecessor := some refTwenty
    fingers := List.replicate mBits none
    nextFinger := 0
    storage := fun k => if k = bigString (some 15) then some "v" else none
    successorList := [some refTwenty] }

/-- The first stabilization of a node alone in its ring: it asks itself for its
predecessor (none) and for its successor (itself). -/
def duplicateRun : List Msg :=
  [.Started, .GetPredecessorResponse none, .GetSuccessorResponse (some refTen)]

/-- The node reached by `duplicateRun`: the successor list names node 10 twice. -/
def twiceListedNode : ChordNode :=
  { singletonNode with successorList := [some refTen, some refTen] }

/-- A stabilization answer followed by the reply to a join. -/
def staleHeadRun : List Msg :=
  [.Started, .GetPredecessorResponse none, .FoundSuccessor (some refTwenty)]

/-- The node reached by `staleHeadRun`: the successor is node 20 while the successor list
still starts with node 10. -/
def staleHeadNode : ChordNode :=
  { singletonNode with successor := some refTwenty, successorList := [some refTen] }

/-! ## Two nodes and the transport between them -/

/-- A message in flight: the mailbox it is addressed to, the sender recorded with it (what
`ctx.Sender()` returns in the handler) and the message. -/
structure Envelope where
  target : Option PID
  sender : Option PID
  msg : Msg
deriving DecidableEq, Repr

/-- The transport of section 6 of the specification (the protoactor calls of `node.go`):
what an effect of the actor at address `me`, emitted while it handles a message from
`sender`, puts in flight. `Send` records no sender, `Request` records the handling actor,
`RequestWithCustomSender` its explicit sender, `Respond` goes to the sender of the handled
message. The ticker is left out: ticks are the `Stabilize` messages of the schedule. -/
def dispatch (me : PID) (sender : Option PID) : Effect → List Envelope
  | .send target m => [⟨target, none, m⟩]
  | .request target m => [⟨target, some me, m⟩]
  | .requestWithCustomSender target m s => [⟨target, s, m⟩]
  | .respond m => [⟨sender, none, m⟩]
  | .startTicker _ => []

/-- Two actors, the bootstrap node `B` and the joining node `J`, and the messages in
flight between them. -/
structure TwoNodes where
  B : ChordNode
  J : ChordNode
  inflight : List Envelope

/-- Delivery of the in-flight message at position `i` to the actor it is addressed to
(`b` is the address of `B`, `j` that of `J`); what the handler emits is put in flight. A
message to any other address is dropped, and a panic of the handler is `none`. -/
def deliverAt (b j : PID) (net : TwoNodes) (i : Nat) : Option TwoNodes :=
  match net.inflight[i]? with
  | none => some net
  | some e =>
    if e.target = some b then
      match Receive ⟨b⟩ net.B e.msg with
      | none => none
      | some (B1, effs) =>
        some { B := B1, J := net.J
               inflight := net.inflight.eraseIdx i ++ effs.flatMap (dispatch b e.sender) }
    else if e.target = some j then
      match Receive ⟨j⟩ net.J e.msg with
      | none => none
      | some (J1, effs) =>
        some { B := net.B, J := J1
               inflight := net.inflight.eraseIdx i ++ effs.flatMap (dispatch j e.sender) }
    else some { net with inflight := net.inflight.eraseIdx i }

/-- Delivery until nothing is in flight, for at most `fuel` deliveries. The message
delivered next is any of those in flight: with `fuel + 1` deliveries left it is the one at
position `pick fuel` (modulo the number in flight). -/
def drain (b j : PID) (pick : Nat → Nat) : Nat → TwoNodes → Option TwoNodes
  | 0, net => some net
  | fuel + 1, net =>
    match net.inflight with
    | [] => some net
    | _ :: _ =>
      match deliverAt b j net (pick fuel % net.inflight.length) with
      | none => none
      | some net1 => drain b j pick fuel net1

/-- One stabilization tick of the actor at address `who`: `Stabilize` is posted to it and
everything it causes is delivered, in the order chosen by `pick`. -/
def tick (b j : PID) (pick : Nat → Nat) (who : PID) (net : TwoNodes) : Option TwoNodes :=
  drain b j pick 8 { net with inflight := net.inflight ++ [⟨some who, none, .Stabilize⟩] }

/-- One stabilization round: each of the two actors handles one `Stabilize`, `B` first or
`J` first, everything caused by the first being delivered before the second. -/
def stabilizeRound (b j : PID) (pick1 pick2 : Nat → Nat) (bFirst : Bool)
    (net : TwoNodes) : Option TwoNodes :=
  if bFirst then (tick b j pick1 b net).bind (tick b j pick2 j)
  else (tick b j pick1 j net).bind (tick b j pick2 b)

/-- Scenario B of the specification: both nodes are started, `J` is sent `Join` with the
address of `B` and the exchange it causes is delivered, then two stabilization rounds are
run. `pick k` orders the deliveries of phase `k`. -/
def joinThenStabilize (b j : PID) (idB idJ : Int) (bFirst1 bFirst2 : Bool)
    (pick : Nat → Nat → Nat) : Option TwoNodes :=
  (handleAll ⟨b⟩ (NewChordNode (some idB)) [.Started]).bind fun B0 =>
  (handleAll ⟨j⟩ (NewChordNode (some idJ)) [.Started]).bind fun J0 =>
  (drain b j (pick 0) 4
    { B := B0, J := J0, inflight := [⟨some j, none, .Join (some b)⟩] }).bind fun net0 =>
  (stabilizeRound b j (pick 1) (pick 2) bFirst1 net0).bind fun net1 =>
  stabilizeRound b j (pick 3) (pick 4) bFirst2 net1

/-- The fields of a running node that the handlers rely on: its own reference, a full
finger table and an index into it. -/
def Sound (pid : PID) (id : Int) (n : ChordNode) : Prop :=
  n.self = { PID := some pid, ID := some id } ∧ n.fingers.length = mBits
    ∧ 0 ≤ n.nextFinger ∧ n.nextFinger < (mBits : Int)

/-- A state of the two-node system with nothing in flight, both nodes sound, and the given
successor and predecessor pointers at `B` and at `J`. -/
def Quiescent (b j : PID) (idB idJ : Int) (Bs Bp Js Jp : Option NodeInfo)
    (net : TwoNodes) : Prop :=
  Sound b idB net.B ∧ Sound j idJ net.J ∧ net.inflight = []
    ∧ net.B.successor = Bs ∧ net.B.predecessor = Bp
    ∧ net.J.successor = Js ∧ net.J.predecessor = Jp
/-- The value of `Hash("node42")`, the identifier of the joining node of `main.go`. -/
def hashNode42 : Int := 253331849238923030659006104142234303085097752397

/-! ## The predicate `between` -/

/-- C1: for present identifiers, `between left x right` holds exactly when
`right > left` and `left < x ≤ right`, or `right ≤ left` and (`x > left` or `x ≤ right`);
it is false as soon as one argument is absent; and the five unit tests of the
specification evaluate as stated. -/
theorem between_characterisation :
    (∀ l x r : Int, between (some l) (some x) (some r) = true ↔
      ((r > l ∧ l < x ∧ x ≤ r) ∨ (r ≤ l ∧ (x > l ∨ x ≤ r))))
    ∧ (∀ x r : Option Int, between none x r = false)
    ∧ (∀ l r : Option Int, between l none r = false)
    ∧ (∀ l x : Option Int, between l x none = false)
    ∧ between (some 10) (some 15) (some 20) = true
    ∧ between (some 10) (some 20) (some 20) = true
    ∧ between (some 10) (some 21) (some 20) = false
    ∧ between (some 250) (some 5) (some 10) = true
    ∧ between (some 250) (some 240) (some 10) = false := by
  refine ⟨?_, ?_, ?_, ?_, by decide, by decide, by decide, by decide, by decide⟩
  · intro l x r
    by_cases h : r > l
    · have h2 : ¬ r ≤ l := by omega
      simp [between, h, h2]
    · have h2 : r ≤ l := by omega
      simp [between, h, h2]
  · intro x r; rfl
  · intro l r; cases l <;> rfl
  · intro l x; cases l <;> cases x <;> rfl

/-- With equal endpoints the second branch of `between` is taken and its disjunction is
a tautology. -/
theorem between_self_arc (l x : Int) : between (some l) (some x) (some l) = true := by
  unfold between
  simp only [gt_iff_lt, lt_irrefl, if_false, Bool.or_eq_true, decide_eq_true_eq]
  omega

/-- C2 (as stated, refuted): `between 5 7 5` is true, so the predicate is not false on
every degenerate arc. -/
theorem between_degenerate_counterexample :
    ¬ (∀ l x : Int, between (some l) (some x) (some l) = false) := by
  intro h
  exact absurd (h 5 7) (by decide)

/-- C2 (amended): when the two endpoints are equal and all three identifiers are present,
`between left x left` is true for every `x`: the degenerate arc is the whole ring. -/
theorem between_degenerate_true (l x : Int) :
    between (some l) (some x) (some l) = true :=
  between_self_arc l x

/-! ## Routing: `closestPrecedingNode` and `findSuccessor` -/

/-- The loop over the `k` lowest finger slots returns the qualifying finger of largest
index below `k`, and the successor when no slot below `k` qualifies. -/
theorem closestPrecedingLoop_spec (n : ChordNode) (key : Option Int) :
    ∀ k, k ≤ n.fingers.length →
      (∀ i f, i < k → n.fingers[i]? = some (some f) →
        between n.self.ID f.ID key = true →
        (∀ j g, i < j → j < k → n.fingers[j]? = some (some g) →
          between n.self.ID g.ID key = false) →
        closestPrecedingLoop n key k = some (some f))
      ∧ ((∀ j g, j < k → n.fingers[j]? = some (some g) →
          between n.self.ID g.ID key = false) →
        closestPrecedingLoop n key k = some n.successor) := by
  intro k
  induction k with
  | zero =>
    intro _
    refine ⟨fun i f hi => absurd hi (Nat.not_lt_zero i), fun _ => rfl⟩
  | succ k ih =>
    intro hk
    have hlt : k < n.fingers.length := hk
    obtain ⟨ih1, ih2⟩ := ih (Nat.le_of_lt hlt)
    have hget : n.fingers[k]? = some n.fingers[k] := List.getElem?_eq_getElem hlt
    constructor
    · intro i f hi hf hb habove
      rcases Nat.lt_succ_iff_lt_or_eq.mp hi with hik | hik
      · have hrest : closestPrecedingLoop n key k = some (some f) :=
          ih1 i f hik hf hb (fun j g hij hjk => habove j g hij (Nat.lt_succ_of_lt hjk))
        cases hfk : n.fingers[k] with
        | none => simp [closestPrecedingLoop, hget, hfk, hrest]
        | some g =>
          have hg : between n.self.ID g.ID key = false :=
            habove k g hik (Nat.lt_succ_self k) (by rw [hget, hfk])
          simp [closestPrecedingLoop, hget, hfk, hg, hrest]
      · subst hik
        simp [closestPrecedingLoop, hf, hb]
    · intro hnone
      have hrest : closestPrecedingLoop n key k = some n.successor :=
        ih2 (fun j g hjk => hnone j g (Nat.lt_succ_of_lt hjk))
      cases hfk : n.fingers[k] with
      | none => simp [closestPrecedingLoop, hget, hfk, hrest]
      | some g =>
        have hg : between n.self.ID g.ID key = false :=
          hnone k g (Nat.lt_succ_self k) (by rw [hget, hfk])
        simp [closestPrecedingLoop, hget, hfk, hg, hrest]

/-- Within the slice the loop never panics, and what it returns is a non-empty finger or
the successor. -/
theorem closestPrecedingLoop_total (n : ChordNode) (key : Option Int) :
    ∀ k, k ≤ n.fingers.length →
      ∃ c, closestPrecedingLoop n key k = some c ∧ (c = none → n.successor = none) := by
  intro k
  induction k with
  | zero => intro _; exact ⟨n.successor, rfl, fun h => h⟩
  | succ k ih =>
    intro hk
    have hlt : k < n.fingers.length := hk
    obtain ⟨c, hc, hcn⟩ := ih (Nat.le_of_lt hlt)
    have hget : n.fingers[k]? = some n.fingers[k] := List.getElem?_eq_getElem hlt
    cases hfk : n.fingers[k] with
    | none => exact ⟨c, by simp [closestPrecedingLoop, hget, hfk, hc], hcn⟩
    | some g =>
      by_cases hb : between n.self.ID g.ID key = true
      · exact ⟨some g, by simp [closestPrecedingLoop, hget, hfk, hb], fun h => by simp at h⟩
      · exact ⟨c, by simp [closestPrecedingLoop, hget, hfk, hb, hc], hcn⟩

/-- Whatever the length of the slice, an empty result of the loop can only be the (empty)
successor. -/
theorem closestPrecedingLoop_none (n : ChordNode) (key : Option Int) :
    ∀ k, closestPrecedingLoop n key k = some none → n.successor = none := by
  intro k
  induction k with
  | zero => intro h; simpa [closestPrecedingLoop] using h
  | succ k ih =>
    intro h
    unfold closestPrecedingLoop at h
    split at h
    · simp at h
    · split at h
      · split at h
        · simp at h
        · exact ih h
      · exact ih h

/-- C3: with a finger table of length `mBits`, `closestPrecedingNode key` returns the
finger at the largest index `i < mBits` whose slot is non-empty and satisfies
`between self.ID finger.ID key`; when no slot qualifies it returns the successor. -/
theorem closestPrecedingNode_largest_qualifying (n : ChordNode) (key : Option Int)
    (hlen : n.fingers.length = mBits) :
    (∀ i f, i < mBits → n.fingers[i]? = some (some f) →
      between n.self.ID f.ID key = true →
      (∀ j g, i < j → j < mBits → n.fingers[j]? = some (some g) →
        between n.self.ID g.ID key = false) →
      closestPrecedingNode n key = some (some f))
    ∧ ((∀ j g, j < mBits → n.fingers[j]? = some (some g) →
        between n.self.ID g.ID key = false) →
      closestPrecedingNode n key = some n.successor) :=
  closestPrecedingLoop_spec n key mBits (le_of_eq hlen.symm)

/-- C3 witness: on `routedNode` slots 3 and 7 both qualify for key 50 and the finger of
slot 7 is returned; on `singletonNode` no slot qualifies and the successor is returned. -/
theorem closestPrecedingNode_largest_qualifying_witness :
    closestPrecedingNode routedNode (some 50) = some (some refThirty)
    ∧ routedNode.fingers[3]? = some (some refForty)
    ∧ between routedNode.self.ID refForty.ID (some 50) = true
    ∧ closestPrecedingNode singletonNode (some 50) = some singletonNode.successor :=
  ⟨(closestPrecedingNode_largest_qualifying routedNode (some 50) (by simp [routedNode])).1
      7 refThirty (by decide) (by simp [routedNode, mBits]) (by decide)
      (by
        intro j g h1 h2 hj
        have h3 : ¬ (7 = j) := by omega
        have h4 : ¬ (3 = j) := by omega
        simp [routedNode, List.getElem?_set, h3, h4, List.getElem?_replicate] at hj),
    by simp [routedNode, mBits, List.getElem?_set],
    by decide,
    (closestPrecedingNode_largest_qualifying singletonNode (some 50)
      (by simp [singletonNode])).2
      (by
        intro j g _ hj
        simp [singletonNode, List.getElem?_replicate] at hj)⟩

/-- C4: `findSuccessor key` answers "no node" exactly when the successor is unset; with the
successor set (and a finger table of length `mBits`) it returns the successor when
`between self.ID key successor.ID` holds, and otherwise the result `c` of
`closestPrecedingNode key` itself, except that it returns the successor when the address
of `c` is the node's own address. -/
theorem findSuccessor_local (n : ChordNode) (key : Option Int) :
    (findSuccessor n key = some none ↔ n.successor = none)
    ∧ (∀ succ, n.successor = some succ → n.fingers.length = mBits →
        ∃ c, closestPrecedingNode n key = some (some c)
          ∧ findSuccessor n key =
              some (some (if between n.self.ID key succ.ID = true then succ
                          else if c.PID = n.self.PID then succ else c))) := by
  constructor
  · constructor
    · intro h
      cases hs : n.successor with
      | none => rfl
      | some succ =>
        exfalso
        unfold findSuccessor at h
        rw [hs] at h
        simp only at h
        split at h
        · simp at h
        · split at h
          · simp at h
          · simp at h
          · split at h <;> simp at h
    · intro h
      simp [findSuccessor, h]
  · intro succ hs hlen
    obtain ⟨c, hc, hcn⟩ := closestPrecedingLoop_total n key mBits (le_of_eq hlen.symm)
    cases c with
    | none => rw [hcn rfl] at hs; simp at hs
    | some c =>
      refine ⟨c, hc, ?_⟩
      have hc2 : closestPrecedingNode n key = some (some c) := hc
      unfold findSuccessor
      rw [hs]
      simp only [hc2]
      by_cases hb : between n.self.ID key succ.ID = true
      · simp [hb]
      · simp only [hb]
        by_cases hp : c.PID = n.self.PID
        · simp [hp]
        · simp [hp]

/-- C4 witness: on `routedNode` key 15 lies between the node and its successor 20, so the
successor is returned; the closest preceding node of 15 is that same successor. -/
theorem findSuccessor_local_witness :
    routedNode.successor = some refTwenty ∧ routedNode.fingers.length = mBits
    ∧ ∃ c, closestPrecedingNode routedNode (some 15) = some (some c)
        ∧ findSuccessor routedNode (some 15) =
            some (some (if between routedNode.self.ID (some 15) refTwenty.ID = true
                        then refTwenty
                        else if c.PID = routedNode.self.PID then refTwenty else c)) :=
  ⟨rfl, by simp [routedNode],
    (findSuccessor_local routedNode (some 15)).2 refTwenty rfl (by simp [routedNode])⟩

/-- C5: in a singleton ring (the node's successor is the node itself) every key belongs to
the sole node, whatever the finger table holds: `findSuccessor K` returns the node itself,
and the `FindSuccessor K requester` handler leaves the state unchanged and emits exactly
one message, `FoundSuccessor self` sent to the requester, with no forwarding. -/
theorem singleton_owns_every_key (ctx : Context) (n : ChordNode) (id K : Int)
    (requester : Option PID)
    (hs : n.successor = some n.self) (hid : n.self.ID = some id) :
    findSuccessor n (some K) = some (some n.self)
    ∧ Receive ctx n (.FindSuccessor (some K) requester)
        = some (n, [.send requester (.FoundSuccessor (some n.self))]) := by
  have hb : between n.self.ID (some K) n.self.ID = true := by
    rw [hid]; exact between_self_arc id K
  constructor
  · simp [findSuccessor, hs, hb]
  · simp [Receive, hs, hb]

/-- C5 witness: `singletonNode` answers the query for key 77 with itself. -/
theorem singleton_owns_every_key_witness :
    singletonNode.successor = some singletonNode.self
    ∧ singletonNode.self.ID = some 10
    ∧ findSuccessor singletonNode (some 77) = some (some singletonNode.self)
    ∧ Receive ⟨1⟩ singletonNode (.FindSuccessor (some 77) (some 9))
        = some (singletonNode, [.send (some 9) (.FoundSuccessor (some singletonNode.self))]) :=
  ⟨rfl, rfl, singleton_owns_every_key ⟨1⟩ singletonNode 10 77 (some 9) rfl rfl⟩

set_option maxRecDepth 100000 in
/-- C6 (the code departs from the claim): node 10, started alone, refreshes finger slot 1
(which then holds the node itself) and later adopts successor 20; this is
`staleFingerNode`. For key 10, `between self.ID key successor.ID` is false and
`closestPrecedingNode` returns the node itself, yet the `FindSuccessor` handler emits a
single request that forwards the query to the node's own address and sends no
`FoundSuccessor` to the requester. -/
theorem findSuccessor_handler_forwards_to_self :
    handleAll ⟨1⟩ (NewChordNode (some 10))
        [.Started, .Stabilize, .GetPredecessorResponse (some refTwenty)]
      = some staleFingerNode
    ∧ between staleFingerNode.self.ID (some 10) refTwenty.ID = false
    ∧ closestPrecedingNode staleFingerNode (some 10) = some (some staleFingerNode.self)
    ∧ Receive ⟨1⟩ staleFingerNode (.FindSuccessor (some 10) (some 9))
        = some (staleFingerNode, [.request (some 1) (.FindSuccessor (some 10) (some 9))])
    ∧ findSuccessor staleFingerNode (some 10) = some (some refTwenty) := by
  refine ⟨?_, by decide, ?_, ?_, ?_⟩
  · rfl
  · rfl
  · rfl
  · rfl

/-! ## Stabilization handlers: `Notify`, `GetPredecessorResponse`, `fixFingers` -/

/-- C7: the `Notify N` handler (N present) never panics and sends no message; afterwards
the predecessor is `N` if the old predecessor was empty or
`between oldPredecessor.ID N.ID self.ID` held, and is otherwise the old predecessor; self,
successor, successor list, fingers, next finger and storage are unchanged. -/
theorem notify_sets_predecessor (ctx : Context) (n : ChordNode) (N : NodeInfo) :
    ∃ n1, Receive ctx n (.Notify (some N)) = some (n1, [])
      ∧ n1.predecessor =
          (match n.predecessor with
           | none => some N
           | some p => if between p.ID N.ID n.self.ID = true then some N else some p)
      ∧ n1.self = n.self ∧ n1.successor = n.successor
      ∧ n1.successorList = n.successorList ∧ n1.fingers = n.fingers
      ∧ n1.nextFinger = n.nextFinger ∧ n1.storage = n.storage := by
  cases hp : n.predecessor with
  | none =>
    exact ⟨{ n with predecessor := some N }, by simp [Receive, hp], rfl, rfl, rfl, rfl, rfl,
      rfl, rfl⟩
  | some p =>
    by_cases hb : between p.ID N.ID n.self.ID = true
    · exact ⟨{ n with predecessor := some N }, by simp [Receive, hp, hb], by simp [hb], rfl,
        rfl, rfl, rfl, rfl, rfl⟩
    · exact ⟨n, by simp [Receive, hp, hb], by simp [hb, hp], rfl, rfl, rfl, rfl, rfl, rfl⟩

/-- C8: `Notify` is idempotent. For a present node reference `N` the handler succeeds
with some state `n1` and, applied to `n1` again, returns `n1` again (no message either
time); for an arbitrary, possibly absent, reference the two-fold application has the same
outcome as the single one. -/
theorem notify_idempotent (ctx : Context) (n : ChordNode) :
    (∀ N : NodeInfo, ∃ n1, Receive ctx n (.Notify (some N)) = some (n1, [])
        ∧ Receive ctx n1 (.Notify (some N)) = some (n1, []))
    ∧ (∀ M : Option NodeInfo,
        (Receive ctx n (.Notify M)).bind (fun r => Receive ctx r.1 (.Notify M))
          = Receive ctx n (.Notify M)) := by
  have key : ∀ N : NodeInfo, ∃ n1, Receive ctx n (.Notify (some N)) = some (n1, [])
      ∧ Receive ctx n1 (.Notify (some N)) = some (n1, []) := by
    intro N
    have again : Receive ctx { n with predecessor := some N } (.Notify (some N))
        = some ({ n with predecessor := some N }, []) := by
      by_cases hb : between N.ID N.ID n.self.ID = true <;> simp [Receive, hb]
    cases hp : n.predecessor with
    | none => exact ⟨{ n with predecessor := some N }, by simp [Receive, hp], again⟩
    | some p =>
      by_cases hb : between p.ID N.ID n.self.ID = true
      · exact ⟨{ n with predecessor := some N }, by simp [Receive, hp, hb], again⟩
      · exact ⟨n, by simp [Receive, hp, hb], by simp [Receive, hp, hb]⟩
  refine ⟨key, ?_⟩
  intro M
  cases M with
  | some N =>
    obtain ⟨n1, h1, h2⟩ := key N
    rw [h1]
    exact h2
  | none =>
    cases hp : n.predecessor with
    | none => simp [Receive, hp]
    | some p => simp [Receive, hp]

/-- C9: with the successor set, the `GetPredecessorResponse P` handler makes `P` the new
successor if `P` is present and `between self.ID P.ID oldSuccessor.ID` holds, and keeps the
old successor otherwise; it emits exactly one message, `Notify self`, sent to the address
of the new successor; the successor list becomes the one-element list of the new
successor; self, predecessor, fingers, next finger and storage are unchanged. -/
theorem getPredecessorResponse_adopts_closer (ctx : Context) (n : ChordNode)
    (succ : NodeInfo) (P : Option NodeInfo) (hs : n.successor = some succ) :
    ∃ n1 s1, Receive ctx n (.GetPredecessorResponse P)
          = some (n1, [.send s1.PID (.Notify (some n.self))])
      ∧ s1 = (match P with
              | some p => if between n.self.ID p.ID succ.ID = true then p else succ
              | none => succ)
      ∧ n1.successor = some s1 ∧ n1.successorList = [some s1]
      ∧ n1.self = n.self ∧ n1.predecessor = n.predecessor ∧ n1.fingers = n.fingers
      ∧ n1.nextFinger = n.nextFinger ∧ n1.storage = n.storage := by
  cases P with
  | none =>
    exact ⟨{ n with successor := some succ, successorList := [some succ] }, succ,
      by simp [Receive, hs], rfl, rfl, rfl, rfl, rfl, rfl, rfl, rfl⟩
  | some p =>
    by_cases hb : between n.self.ID p.ID succ.ID = true
    · exact ⟨{ n with successor := some p, successorList := [some p] }, p,
        by simp [Receive, hs, hb], by simp [hb], rfl, rfl, rfl, rfl, rfl, rfl, rfl⟩
    · exact ⟨{ n with successor := some succ, successorList := [some succ] }, succ,
        by simp [Receive, hs, hb], by simp [hb], rfl, rfl, rfl, rfl, rfl, rfl, rfl⟩

/-- C9 witness: `routedNode` (node 10, successor 20) is told that its successor's
predecessor is node 15; node 15 becomes the successor and is the one notified. -/
theorem getPredecessorResponse_adopts_closer_witness :
    routedNode.successor = some refTwenty
    ∧ ∃ n1 s1, Receive ⟨1⟩ routedNode (.GetPredecessorResponse (some ⟨some 5, some 15⟩))
          = some (n1, [.send s1.PID (.Notify (some routedNode.self))])
      ∧ s1 = (match (some ⟨some 5, some 15⟩ : Option NodeInfo) with
              | some p => if between routedNode.self.ID p.ID refTwenty.ID = true then p
                          else refTwenty
              | none => refTwenty)
      ∧ n1.successor = some s1 ∧ n1.successorList = [some s1]
      ∧ n1.self = routedNode.self ∧ n1.predecessor = routedNode.predecessor
      ∧ n1.fingers = routedNode.fingers
      ∧ n1.nextFinger = routedNode.nextFinger ∧ n1.storage = routedNode.storage :=
  ⟨rfl, getPredecessorResponse_adopts_closer ⟨1⟩ routedNode refTwenty
    (some ⟨some 5, some 15⟩) rfl⟩

/-- The routing loop does not read `nextFinger`. -/
theorem closestPrecedingLoop_nextFinger (n : ChordNode) (x : Int) (key : Option Int) :
    ∀ k, closestPrecedingLoop { n with nextFinger := x } key k
      = closestPrecedingLoop n key k := by
  intro k
  induction k with
  | zero => rfl
  | succ k ih => simp only [closestPrecedingLoop, ih]

/-- The method `findSuccessor` does not read `nextFinger`. -/
theorem findSuccessor_nextFinger (n : ChordNode) (x : Int) (key : Option Int) :
    findSuccessor { n with nextFinger := x } key = findSuccessor n key := by
  simp only [findSuccessor, closestPrecedingNode, closestPrecedingLoop_nextFinger]

/-- With a full finger table `findSuccessor` never panics. -/
theorem findSuccessor_total (n : ChordNode) (key : Option Int)
    (hlen : n.fingers.length = mBits) : ∃ r, findSuccessor n key = some r := by
  cases hs : n.successor with
  | none => exact ⟨none, by simp [findSuccessor, hs]⟩
  | some succ =>
    obtain ⟨c, hc, _⟩ := closestPrecedingLoop_total n key mBits (le_of_eq hlen.symm)
    have hc2 : closestPrecedingNode n key = some c := hc
    unfold findSuccessor
    rw [hs]
    simp only [hc2]
    split
    · exact ⟨_, rfl⟩
    · split
      · rename_i h; simp at h
      · exact ⟨_, rfl⟩
      · split <;> exact ⟨_, rfl⟩

/-- C10: with `0 ≤ nextFinger < mBits`, a finger table of length `mBits` and a present
own identifier, `fixFingers` succeeds; the new `nextFinger` is `(nextFinger + 1) mod mBits`,
again in `[0, mBits)`; the slot of that index receives what `findSuccessor` returns, on the
state before the call, for the key `(self.ID + 2 ^ nextFinger) mod 2 ^ mBits` (new index);
every other finger slot, the table length, self, successor, predecessor, successor list
and storage are unchanged. -/
theorem fixFingers_refreshes_one_slot (n : ChordNode) (id : Int)
    (h0 : 0 ≤ n.nextFinger) (h1 : n.nextFinger < (mBits : Int))
    (hlen : n.fingers.length = mBits) (hid : n.self.ID = some id) :
    ∃ n1 found, fixFingers n = some n1
      ∧ n1.nextFinger = (n.nextFinger + 1) % (mBits : Int)
      ∧ 0 ≤ n1.nextFinger ∧ n1.nextFinger < (mBits : Int)
      ∧ findSuccessor n (some ((id + 2 ^ n1.nextFinger.toNat) % 2 ^ mBits)) = some found
      ∧ n1.fingers[n1.nextFinger.toNat]? = some found
      ∧ (∀ j, j ≠ n1.nextFinger.toNat → n1.fingers[j]? = n.fingers[j]?)
      ∧ n1.fingers.length = mBits
      ∧ n1.self = n.self ∧ n1.successor = n.successor ∧ n1.predecessor = n.predecessor
      ∧ n1.successorList = n.successorList ∧ n1.storage = n.storage := by
  have hm : (mBits : Int) = 160 := rfl
  have hwrap : wrapInt (n.nextFinger + 1) = n.nextFinger + 1 := by
    unfold wrapInt
    rw [hm] at h1
    norm_num
    omega
  have htmod : Int.tmod (wrapInt (n.nextFinger + 1)) (mBits : Int)
      = (n.nextFinger + 1) % (mBits : Int) := by
    rw [hwrap]
    exact Int.tmod_eq_emod (by omega) (by rw [hm]; norm_num)
  have hge : 0 ≤ (n.nextFinger + 1) % (mBits : Int) :=
    Int.emod_nonneg _ (by rw [hm]; norm_num)
  have hlt : (n.nextFinger + 1) % (mBits : Int) < (mBits : Int) :=
    Int.emod_lt_of_pos _ (by rw [hm]; norm_num)
  have hidx : ((n.nextFinger + 1) % (mBits : Int)).toNat < n.fingers.length := by
    rw [hlen]
    exact (Int.toNat_lt hge).mpr hlt
  obtain ⟨found, hfound⟩ := findSuccessor_total n
    (some ((id + 2 ^ ((n.nextFinger + 1) % (mBits : Int)).toNat) % 2 ^ mBits)) hlen
  refine ⟨{ n with nextFinger := (n.nextFinger + 1) % (mBits : Int),
                   fingers := n.fingers.set ((n.nextFinger + 1) % (mBits : Int)).toNat found },
    found, ?_, rfl, hge, hlt, hfound, ?_, ?_, ?_, rfl, rfl, rfl, rfl, rfl⟩
  · unfold fixFingers
    simp only [htmod, hid, findSuccessor_nextFinger, hfound]
    rw [if_pos ⟨hge, hidx⟩]
  · simp [List.getElem?_set, hidx]
  · intro j hj
    simp [List.getElem?_set, Ne.symm hj]
  · simp [hlen]

/-- C10 witness: `lastSlotNode` (node 10, `nextFinger = 158`) satisfies the hypotheses,
so the refresh succeeds there. -/
theorem fixFingers_refreshes_one_slot_witness :
    (0 ≤ lastSlotNode.nextFinger ∧ lastSlotNode.nextFinger < (mBits : Int)
      ∧ lastSlotNode.fingers.length = mBits ∧ lastSlotNode.self.ID = some 10)
    ∧ ∃ n1 found, fixFingers lastSlotNode = some n1
      ∧ n1.nextFinger = (lastSlotNode.nextFinger + 1) % (mBits : Int)
      ∧ 0 ≤ n1.nextFinger ∧ n1.nextFinger < (mBits : Int)
      ∧ findSuccessor lastSlotNode (some ((10 + 2 ^ n1.nextFinger.toNat) % 2 ^ mBits))
          = some found
      ∧ n1.fingers[n1.nextFinger.toNat]? = some found
      ∧ (∀ j, j ≠ n1.nextFinger.toNat → n1.fingers[j]? = lastSlotNode.fingers[j]?)
      ∧ n1.fingers.length = mBits
      ∧ n1.self = lastSlotNode.self ∧ n1.successor = lastSlotNode.successor
      ∧ n1.predecessor = lastSlotNode.predecessor
      ∧ n1.successorList = lastSlotNode.successorList
      ∧ n1.storage = lastSlotNode.storage :=
  ⟨⟨by decide, by decide, by simp [lastSlotNode, routedNode], rfl⟩,
    fixFingers_refreshes_one_slot lastSlotNode 10 (by decide) (by decide)
      (by simp [lastSlotNode, routedNode]) rfl⟩

/-! ## Key-value layer: `Store`, `Lookup`, `GetValue` -/

/-- What `findSuccessor` returns, when it returns a node, is the successor or a node whose
address differs from the node's own. -/
theorem findSuccessor_shape (n : ChordNode) (key : Option Int) (succ S : NodeInfo)
    (hs : n.successor = some succ) (hf : findSuccessor n key = some (some S)) :
    S = succ ∨ S.PID ≠ n.self.PID := by
  unfold findSuccessor at hf
  rw [hs] at hf
  simp only at hf
  split at hf
  · left; simpa using hf.symm
  · split at hf
    · simp at hf
    · left; simpa using hf.symm
    · split at hf
      · left; simpa using hf.symm
      · rename_i next _ hne
        right
        have : next = S := by simpa using hf
        rw [← this]
        exact hne

/-- With the successor set and a full finger table `findSuccessor` returns a node. -/
theorem findSuccessor_some (n : ChordNode) (key : Option Int) (succ : NodeInfo)
    (hs : n.successor = some succ) (hlen : n.fingers.length = mBits) :
    ∃ S, findSuccessor n key = some (some S) := by
  obtain ⟨r, hr⟩ := findSuccessor_total n key hlen
  cases r with
  | some S => exact ⟨S, hr⟩
  | none =>
    exfalso
    unfold findSuccessor at hr
    rw [hs] at hr
    simp only at hr
    split at hr
    · simp at hr
    · split at hr
      · simp at hr
      · simp at hr
      · split at hr <;> simp at hr

/-- C11: with the successor set (and a finger table of length `mBits`), let `S` be the
result of `findSuccessor K`. If `S` has the node's own address, the `Store K V` handler
sets the storage entry of `K` to `V`, leaves every other storage entry and every other
field unchanged and sends nothing; otherwise it leaves the whole state unchanged and
sends exactly one message, the same `Store K V`, to the address of `S`. -/
theorem store_writes_or_forwards (ctx : Context) (n : ChordNode) (succ : NodeInfo)
    (K : Option Int) (V : String)
    (hs : n.successor = some succ) (hlen : n.fingers.length = mBits) :
    ∃ S, findSuccessor n K = some (some S)
      ∧ (S.PID = n.self.PID →
          ∃ n1, Receive ctx n (.Store K V) = some (n1, [])
            ∧ n1.storage (bigString K) = some V
            ∧ (∀ k, k ≠ bigString K → n1.storage k = n.storage k)
            ∧ n1.self = n.self ∧ n1.successor = n.successor
            ∧ n1.predecessor = n.predecessor ∧ n1.fingers = n.fingers
            ∧ n1.nextFinger = n.nextFinger ∧ n1.successorList = n.successorList)
      ∧ (S.PID ≠ n.self.PID →
          Receive ctx n (.Store K V) = some (n, [.send S.PID (.Store K V)])) := by
  obtain ⟨S, hS⟩ := findSuccessor_some n K succ hs hlen
  refine ⟨S, hS, ?_, ?_⟩
  · intro hp
    refine ⟨{ n with storage := fun k => if k = bigString K then some V else n.storage k },
      by simp [Receive, hS, hp], by simp, ?_, rfl, rfl, rfl, rfl, rfl, rfl⟩
    intro k hk
    simp [hk]
  · intro hp
    simp [Receive, hS, hp]

/-- C11 witness: `singletonNode` stores key 50 itself, and `routedNode` (whose successor
20 has another address) forwards the same message to the node found for key 50. -/
theorem store_writes_or_forwards_witness :
    (singletonNode.successor = some refTen ∧ singletonNode.fingers.length = mBits)
    ∧ (∃ S, findSuccessor singletonNode (some 50) = some (some S)
      ∧ (S.PID = singletonNode.self.PID →
          ∃ n1, Receive ⟨1⟩ singletonNode (.Store (some 50) "v") = some (n1, [])
            ∧ n1.storage (bigString (some 50)) = some "v"
            ∧ (∀ k, k ≠ bigString (some 50) → n1.storage k = singletonNode.storage k)
            ∧ n1.self = singletonNode.self ∧ n1.successor = singletonNode.successor
            ∧ n1.predecessor = singletonNode.predecessor
            ∧ n1.fingers = singletonNode.fingers
            ∧ n1.nextFinger = singletonNode.nextFinger
            ∧ n1.successorList = singletonNode.successorList)
      ∧ (S.PID ≠ singletonNode.self.PID →
          Receive ⟨1⟩ singletonNode (.Store (some 50) "v")
            = some (singletonNode, [.send S.PID (.Store (some 50) "v")]))) :=
  ⟨⟨rfl, by simp [singletonNode]⟩,
    store_writes_or_forwards ⟨1⟩ singletonNode refTen (some 50) "v" rfl
      (by simp [singletonNode])⟩

/-- C13: the `GetValue K requester` handler never panics, leaves the state unchanged and
sends exactly one message, a `GetValueResponse` for key `K` to the requester; `Found` is
true exactly when the storage has an entry for `K`, `Value` is that entry when there is
one and the empty string when there is none. -/
theorem getValue_answers_from_storage (ctx : Context) (n : ChordNode) (K : Option Int)
    (requester : Option PID) :
    Receive ctx n (.GetValue K requester)
      = some (n, [.send requester
          (.GetValueResponse K ((n.storage (bigString K)).getD "")
            (n.storage (bigString K)).isSome)]) := by
  cases h : n.storage (bigString K) <;> simp [Receive, h]

/-- C12: singleton store/lookup round trip. On a started node whose successor is itself,
for every key `K` and value `V`: handling `Store K V` succeeds without a message; then
handling `Lookup K` sends exactly `GetValue K` with the node as requester to the node's
own address; and handling that `GetValue` sends exactly
`GetValueResponse K V found=true` to the requester. -/
theorem singleton_store_lookup_roundtrip (ctx : Context) (n : ChordNode) (id K : Int)
    (V : String) (hs : n.successor = some n.self) (hid : n.self.ID = some id)
    (hpid : n.self.PID = some ctx.Self) :
    ∃ n1, Receive ctx n (.Store (some K) V) = some (n1, [])
      ∧ Receive ctx n1 (.Lookup (some K))
          = some (n1, [.send (some ctx.Self) (.GetValue (some K) (some ctx.Self))])
      ∧ Receive ctx n1 (.GetValue (some K) (some ctx.Self))
          = some (n1, [.send (some ctx.Self) (.GetValueResponse (some K) V true)]) := by
  have hb : between n.self.ID (some K) n.self.ID = true := by
    rw [hid]; exact between_self_arc id K
  have hf : findSuccessor n (some K) = some (some n.self) := by
    simp [findSuccessor, hs, hb]
  refine ⟨{ n with storage := fun k => if k = bigString (some K) then some V
                                       else n.storage k }, ?_, ?_, ?_⟩
  · simp [Receive, hf]
  · have hf1 : findSuccessor
        { n with storage := fun k => if k = bigString (some K) then some V else n.storage k }
        (some K) = some (some n.self) := by
      simp [findSuccessor, hs, hb]
    simp [Receive, hf1, hpid]
  · simp [Receive]

/-- C12 witness: the bootstrap node of `main.go` (identifier `Hash("bootstrap")`, address
1, alone in its ring) stores `Hash("key1")` with value `value1` and answers the lookup
with that value and `found = true`. -/
theorem singleton_store_lookup_roundtrip_witness :
    (bootstrapNode.successor = some bootstrapNode.self
      ∧ bootstrapNode.self.ID = some hashBootstrap ∧ bootstrapNode.self.PID = some 1)
    ∧ ∃ n1, Receive ⟨1⟩ bootstrapNode (.Store (some hashKey1) "value1") = some (n1, [])
      ∧ Receive ⟨1⟩ n1 (.Lookup (some hashKey1))
          = some (n1, [.send (some 1) (.GetValue (some hashKey1) (some 1))])
      ∧ Receive ⟨1⟩ n1 (.GetValue (some hashKey1) (some 1))
          = some (n1, [.send (some 1) (.GetValueResponse (some hashKey1) "value1" true)]) :=
  ⟨⟨rfl, rfl, rfl⟩,
    singleton_store_lookup_roundtrip ⟨1⟩ bootstrapNode hashBootstrap hashKey1 "value1"
      rfl rfl rfl⟩

/-- C19: the two arcs between distinct points partition the ring. For present identifiers
`l ≠ r` exactly one of `between l x r` and `between r x l` is true; and when the endpoints
coincide both are true. -/
theorem between_arcs_partition (l r x : Int) :
    (l ≠ r →
      (between (some l) (some x) (some r) = true ∧ between (some r) (some x) (some l) = false)
      ∨ (between (some l) (some x) (some r) = false
          ∧ between (some r) (some x) (some l) = true))
    ∧ (l = r →
      between (some l) (some x) (some r) = true
        ∧ between (some r) (some x) (some l) = true) := by
  constructor
  · intro hne
    rcases lt_or_gt_of_ne hne with h | h
    · have h1 : ¬ l > r := by omega
      by_cases hx : l < x ∧ x ≤ r
      · left
        have h2 : ¬ r < x := by omega
        have h3 : ¬ x ≤ l := by omega
        simp [between, h, h1, hx, h2, h3]
      · right
        have h2 : r < x ∨ x ≤ l := by omega
        simp only [between, gt_iff_lt, h, h1, if_true, if_false]
        constructor
        · simp only [Bool.and_eq_false_iff, decide_eq_false_iff_not]
          omega
        · simp only [Bool.or_eq_true, decide_eq_true_eq]
          exact h2
    · have h1 : ¬ r > l := by omega
      by_cases hx : r < x ∧ x ≤ l
      · right
        have h2 : ¬ l < x := by omega
        have h3 : ¬ x ≤ r := by omega
        simp [between, h, h1, hx, h2, h3]
      · left
        have h2 : l < x ∨ x ≤ r := by omega
        simp only [between, gt_iff_lt, h, h1, if_true, if_false]
        constructor
        · simp only [Bool.or_eq_true, decide_eq_true_eq]
          exact h2
        · simp only [Bool.and_eq_false_iff, decide_eq_false_iff_not]
          omega
  · intro he
    subst he
    exact ⟨between_self_arc l x, between_self_arc l x⟩

/-- C19 witness: key 15 lies on the arc from 10 to 20 and not on the arc from 20 to 10,
while with both endpoints at 10 it lies on the (whole-ring) arc. -/
theorem between_arcs_partition_witness :
    ((10 : Int) ≠ 20 ∧ ((10 : Int) = 10))
    ∧ ((between (some 10) (some 15) (some 20) = true
          ∧ between (some 20) (some 15) (some 10) = false)
        ∨ (between (some 10) (some 15) (some 20) = false
          ∧ between (some 20) (some 15) (some 10) = true))
    ∧ (between (some 10) (some 15) (some 10) = true
        ∧ between (some 10) (some 15) (some 10) = true) :=
  ⟨⟨by decide, rfl⟩, (between_arcs_partition 10 20 15).1 (by decide),
    (between_arcs_partition 10 10 15).2 rfl⟩

/-- C20: when the successor is set and its address differs from the node's own, then for
every finger table (of length `mBits`), every predecessor and every `Store K V`, the
handler leaves the node (its storage included) unchanged and sends exactly one message,
the `Store K V` itself, to a node whose address differs from the node's own. -/
theorem store_forwards_when_successor_is_other (ctx : Context) (n : ChordNode)
    (succ : NodeInfo) (K : Option Int) (V : String)
    (hs : n.successor = some succ) (hne : succ.PID ≠ n.self.PID)
    (hlen : n.fingers.length = mBits) :
    ∃ S : NodeInfo, S.PID ≠ n.self.PID
      ∧ Receive ctx n (.Store K V) = some (n, [.send S.PID (.Store K V)]) := by
  obtain ⟨S, hS⟩ := findSuccessor_some n K succ hs hlen
  have hp : S.PID ≠ n.self.PID := by
    rcases findSuccessor_shape n K succ S hs hS with h | h
    · rw [h]; exact hne
    · exact h
  exact ⟨S, hp, by simp [Receive, hS, hp]⟩

/-- C20 witness: `responsibleNode` is node 10 with predecessor 5 and successor 20, so key 8
lies in its own arc (`between 5 8 10` holds); it still forwards `Store 8` elsewhere. -/
theorem store_forwards_when_successor_is_other_witness :
    (responsibleNode.successor = some refTwenty
      ∧ refTwenty.PID ≠ responsibleNode.self.PID
      ∧ responsibleNode.fingers.length = mBits
      ∧ between (some 5) (some 8) responsibleNode.self.ID = true)
    ∧ ∃ S : NodeInfo, S.PID ≠ responsibleNode.self.PID
      ∧ Receive ⟨1⟩ responsibleNode (.Store (some 8) "v")
          = some (responsibleNode, [.send S.PID (.Store (some 8) "v")]) :=
  ⟨⟨rfl, by decide, by simp [responsibleNode, routedNode], by decide⟩,
    store_forwards_when_successor_is_other ⟨1⟩ responsibleNode refTwenty (some 8) "v"
      rfl (by decide) (by simp [responsibleNode, routedNode])⟩

/-! ## Invariants along a run of handled messages -/

/-- What `fixFingers` leaves alone when it returns: everything but `nextFinger` and one
finger slot; the table keeps its length and the new index lies inside it. -/
theorem fixFingers_frame (n n1 : ChordNode) (h : fixFingers n = some n1) :
    n1.self = n.self ∧ n1.successor = n.successor ∧ n1.predecessor = n.predecessor
      ∧ n1.storage = n.storage ∧ n1.successorList = n.successorList
      ∧ n1.fingers.length = n.fingers.length
      ∧ 0 ≤ n1.nextFinger ∧ n1.nextFinger.toNat < n.fingers.length := by
  unfold fixFingers at h
  simp only at h
  split at h
  · simp at h
  · split at h
    · simp at h
    · split at h
      · rename_i hc
        simp only [Option.some.injEq] at h
        subst h
        exact ⟨rfl, rfl, rfl, rfl, rfl, by simp, hc.1, hc.2⟩
      · simp at h

/-- With `nextFinger` in range, a full finger table and a present identifier `fixFingers`
returns, and the new `nextFinger` is in range again. -/
theorem fixFingers_succeeds (n : ChordNode) (id : Int)
    (h0 : 0 ≤ n.nextFinger) (h1 : n.nextFinger < (mBits : Int))
    (hlen : n.fingers.length = mBits) (hid : n.self.ID = some id) :
    ∃ n1, fixFingers n = some n1 ∧ n1.nextFinger < (mBits : Int) := by
  have hm : (mBits : Int) = 160 := rfl
  have hwrap : wrapInt (n.nextFinger + 1) = n.nextFinger + 1 := by
    unfold wrapInt
    rw [hm] at h1
    norm_num
    omega
  have htmod : Int.tmod (wrapInt (n.nextFinger + 1)) (mBits : Int)
      = (n.nextFinger + 1) % (mBits : Int) := by
    rw [hwrap]
    exact Int.tmod_eq_emod (by omega) (by rw [hm]; norm_num)
  have hge : 0 ≤ (n.nextFinger + 1) % (mBits : Int) :=
    Int.emod_nonneg _ (by rw [hm]; norm_num)
  have hlt : (n.nextFinger + 1) % (mBits : Int) < (mBits : Int) :=
    Int.emod_lt_of_pos _ (by rw [hm]; norm_num)
  have hidx : ((n.nextFinger + 1) % (mBits : Int)).toNat < n.fingers.length := by
    rw [hlen]
    exact (Int.toNat_lt hge).mpr hlt
  obtain ⟨found, hfound⟩ := findSuccessor_total n
    (some ((id + 2 ^ ((n.nextFinger + 1) % (mBits : Int)).toNat) % 2 ^ mBits)) hlen
  refine ⟨{ n with nextFinger := (n.nextFinger + 1) % (mBits : Int),
                   fingers := n.fingers.set ((n.nextFinger + 1) % (mBits : Int)).toNat found },
    ?_, hlt⟩
  unfold fixFingers
  simp only [htmod, hid, findSuccessor_nextFinger, hfound]
  rw [if_pos ⟨hge, hidx⟩]

/-- No handler lengthens the successor list beyond five entries. -/
theorem successorList_step (ctx : Context) (n n1 : ChordNode) (m : Msg) (effs : List Effect)
    (hr : Receive ctx n m = some (n1, effs)) (hl : n.successorList.length ≤ 5) :
    n1.successorList.length ≤ 5 := by
  cases m with
  | Started =>
    simp only [Receive, Option.some.injEq, Prod.mk.injEq] at hr
    obtain ⟨h, _⟩ := hr
    subst h
    split <;> exact hl
  | Join e => simp [Receive] at hr; rw [← hr.1]; exact hl
  | FindSuccessor k r =>
    simp only [Receive] at hr
    split at hr
    · simp at hr; rw [← hr.1]; exact hl
    · split at hr
      · simp at hr; rw [← hr.1]; exact hl
      · split at hr
        · simp at hr
        · simp at hr; rw [← hr.1]; exact hl
        · simp at hr; rw [← hr.1]; exact hl
  | FoundSuccessor s =>
    cases s with
    | none => simp [Receive] at hr
    | some s => simp [Receive] at hr; rw [← hr.1]; exact hl
  | GetPredecessor => simp [Receive] at hr; rw [← hr.1]; exact hl
  | GetPredecessorResponse p =>
    simp only [Receive] at hr
    split at hr
    · simp at hr
    · simp at hr; rw [← hr.1]; simp
  | Notify nd =>
    simp only [Receive] at hr
    split at hr
    · simp at hr; rw [← hr.1]; exact hl
    · split at hr
      · simp at hr
      · split at hr
        · simp at hr; rw [← hr.1]; exact hl
        · simp at hr; rw [← hr.1]; exact hl
  | Stabilize =>
    simp only [Receive] at hr
    split at hr
    · simp at hr; rw [← hr.1]; exact hl
    · split at hr
      · simp at hr
      · rename_i n2 hfix
        simp at hr
        rw [← hr.1, (fixFingers_frame n n2 hfix).2.2.2.2.1]
        exact hl
  | Lookup k =>
    simp only [Receive] at hr
    split at hr
    · simp at hr
    · simp at hr; rw [← hr.1]; exact hl
    · simp at hr; rw [← hr.1]; exact hl
  | Store k v =>
    simp only [Receive] at hr
    split at hr
    · simp at hr
    · simp at hr
    · split at hr
      · simp at hr; rw [← hr.1]; exact hl
      · simp at hr; rw [← hr.1]; exact hl
  | GetValue k r =>
    simp only [Receive] at hr
    split at hr
    · simp at hr; rw [← hr.1]; exact hl
    · simp at hr; rw [← hr.1]; exact hl
  | GetValueResponse k v f => simp [Receive] at hr; rw [← hr.1]; exact hl
  | GetSuccessor => simp [Receive] at hr; rw [← hr.1]; exact hl
  | GetSuccessorResponse s =>
    simp only [Receive, Option.some.injEq, Prod.mk.injEq] at hr
    rw [← hr.1]
    simp only
    split
    · simp
    · rename_i h; omega
  | Other => simp [Receive] at hr; rw [← hr.1]; exact hl

/-- The bound on the successor list holds along every run. -/
theorem successorList_run (ctx : Context) (msgs : List Msg) :
    ∀ n nf : ChordNode, handleAll ctx n msgs = some nf → n.successorList.length ≤ 5 →
      nf.successorList.length ≤ 5 := by
  induction msgs with
  | nil =>
    intro n nf h hl
    simp only [handleAll, Option.some.injEq] at h
    rw [← h]; exact hl
  | cons m ms ih =>
    intro n nf h hl
    simp only [handleAll] at h
    split at h
    · simp at h
    · rename_i n1 effs hr
      exact ih n1 nf h (successorList_step ctx n n1 m effs hr hl)

/-- C17: the successor list is empty at creation; after every run of handled messages
from a freshly created node it has at most five entries; and the `GetSuccessorResponse`
handler appends the reported successor at the end and keeps the first five entries. -/
theorem successorList_length_bound (ctx : Context) (id : Option Int) (msgs : List Msg)
    (nf : ChordNode) (h : handleAll ctx (NewChordNode id) msgs = some nf) :
    (NewChordNode id).successorList = []
    ∧ nf.successorList.length ≤ 5
    ∧ (∀ (n : ChordNode) (s : Option NodeInfo),
        Receive ctx n (.GetSuccessorResponse s)
          = some ({ n with successorList := (n.successorList ++ [s]).take 5 }, [])) := by
  refine ⟨rfl, successorList_run ctx msgs (NewChordNode id) nf h (by simp [NewChordNode]), ?_⟩
  intro n s
  simp only [Receive, Option.some.injEq, Prod.mk.injEq, and_true]
  split
  · rfl
  · rename_i hlen
    rw [List.take_of_length_le (by omega)]

set_option maxRecDepth 100000 in
/-- C17 witness: six reports of node 20 after `Started` leave exactly five entries. -/
theorem successorList_length_bound_witness :
    handleAll ⟨1⟩ (NewChordNode (some 10))
        [.Started, .GetSuccessorResponse (some refTwenty),
         .GetSuccessorResponse (some refTwenty), .GetSuccessorResponse (some refTwenty),
         .GetSuccessorResponse (some refTwenty), .GetSuccessorResponse (some refTwenty),
         .GetSuccessorResponse (some refTwenty)] = some crowdedNode
    ∧ (NewChordNode (some 10)).successorList = []
    ∧ crowdedNode.successorList.length ≤ 5
    ∧ (∀ (n : ChordNode) (s : Option NodeInfo),
        Receive ⟨1⟩ n (.GetSuccessorResponse s)
          = some ({ n with successorList := (n.successorList ++ [s]).take 5 }, [])) :=
  ⟨rfl, successorList_length_bound ⟨1⟩ (some 10)
    [.Started, .GetSuccessorResponse (some refTwenty),
     .GetSuccessorResponse (some refTwenty), .GetSuccessorResponse (some refTwenty),
     .GetSuccessorResponse (some refTwenty), .GetSuccessorResponse (some refTwenty),
     .GetSuccessorResponse (some refTwenty)] crowdedNode rfl⟩

/-- A handler given a present payload keeps a healthy node healthy, and does not panic. -/
theorem healthy_step (ctx : Context) (id : Int) (n : ChordNode) (m : Msg)
    (hn : Healthy id n) (hm : payloadPresent m = true) :
    ∃ r, Receive ctx n m = some r ∧ Healthy id r.1 := by
  obtain ⟨hs, hlen, h0, h1, hid⟩ := hn
  obtain ⟨succ, hsucc⟩ := Option.ne_none_iff_exists'.mp hs
  have hn : Healthy id n := ⟨hs, hlen, h0, h1, hid⟩
  cases m with
  | Started =>
    simp only [Receive, hsucc]
    rw [if_neg (by simp)]
    exact ⟨_, rfl, by simp, hlen, h0, h1, hid⟩
  | Join e => exact ⟨_, rfl, hn⟩
  | FindSuccessor k r =>
    obtain ⟨c, hc, hcn⟩ := closestPrecedingLoop_total n k mBits (le_of_eq hlen.symm)
    have hc2 : closestPrecedingNode n k = some c := hc
    simp only [Receive, hsucc, hc2]
    split
    · exact ⟨_, rfl, hn⟩
    · cases c with
      | none => exact ⟨_, rfl, hn⟩
      | some c => exact ⟨_, rfl, hn⟩
  | FoundSuccessor s =>
    cases s with
    | none => simp [payloadPresent] at hm
    | some s => exact ⟨_, rfl, by simp, hlen, h0, h1, hid⟩
  | GetPredecessor => exact ⟨_, rfl, hn⟩
  | GetPredecessorResponse p =>
    simp only [Receive, hsucc]
    exact ⟨_, rfl, by simp, hlen, h0, h1, hid⟩
  | Notify nd =>
    cases nd with
    | none => simp [payloadPresent] at hm
    | some nd =>
      cases hp : n.predecessor with
      | none =>
        simp only [Receive, hp]
        exact ⟨_, rfl, hs, hlen, h0, h1, hid⟩
      | some p =>
        simp only [Receive, hp]
        split
        · exact ⟨_, rfl, hs, hlen, h0, h1, hid⟩
        · exact ⟨_, rfl, hn⟩
  | Stabilize =>
    obtain ⟨n2, hfix, hlt⟩ := fixFingers_succeeds n id h0 h1 hlen hid
    obtain ⟨f1, f2, _, _, _, f6, f7, _⟩ := fixFingers_frame n n2 hfix
    simp only [Receive, hsucc, hfix]
    exact ⟨_, rfl, by rw [f2]; exact hs, by rw [f6]; exact hlen, f7, hlt,
      by rw [f1]; exact hid⟩
  | Lookup k =>
    obtain ⟨S, hS⟩ := findSuccessor_some n k succ hsucc hlen
    simp only [Receive, hS]
    exact ⟨_, rfl, hn⟩
  | Store k v =>
    obtain ⟨S, hS⟩ := findSuccessor_some n k succ hsucc hlen
    simp only [Receive, hS]
    split
    · exact ⟨_, rfl, hs, hlen, h0, h1, hid⟩
    · exact ⟨_, rfl, hn⟩
  | GetValue k r =>
    simp only [Receive]
    split
    · exact ⟨_, rfl, hn⟩
    · exact ⟨_, rfl, hn⟩
  | GetValueResponse k v f => exact ⟨_, rfl, hn⟩
  | GetSuccessor => exact ⟨_, rfl, hn⟩
  | GetSuccessorResponse s => exact ⟨_, rfl, hs, hlen, h0, h1, hid⟩
  | Other => exact ⟨_, rfl, hn⟩

/-- A run of messages with present payloads from a healthy node never panics and ends in
a healthy node. -/
theorem healthy_run (ctx : Context) (id : Int) (msgs : List Msg) :
    ∀ n : ChordNode, Healthy id n → (∀ m ∈ msgs, payloadPresent m = true) →
      ∃ nf, handleAll ctx n msgs = some nf ∧ Healthy id nf := by
  induction msgs with
  | nil => intro n hn _; exact ⟨n, rfl, hn⟩
  | cons m ms ih =>
    intro n hn hp
    obtain ⟨⟨n1, effs⟩, hr, hn1⟩ :=
      healthy_step ctx id n m hn (hp m (List.mem_cons_self m ms))
    obtain ⟨nf, hrun, hnf⟩ := ih n1 hn1 (fun x hx => hp x (List.mem_cons_of_mem m hx))
    exact ⟨nf, by simp [handleAll, hr, hrun], hnf⟩

/-- C18: the successor is never empty once initialised. For a freshly created node with a
present identifier, `Started` makes the node its own successor; and for every following
sequence of messages whose node-reference payloads are present, the run never panics (so
no handler dereferences an empty successor), the successor is set at its end (hence after
every handler, each initial segment being such a sequence), and `findSuccessor` returns
a node for every key. -/
theorem successor_never_empty (ctx : Context) (id : Int) (msgs : List Msg)
    (hp : ∀ m ∈ msgs, payloadPresent m = true) :
    (∃ n0, handleAll ctx (NewChordNode (some id)) [.Started] = some n0
        ∧ n0.successor = some n0.self)
    ∧ ∃ nf, handleAll ctx (NewChordNode (some id)) (.Started :: msgs) = some nf
        ∧ nf.successor ≠ none
        ∧ ∀ K, ∃ S, findSuccessor nf K = some (some S) := by
  constructor
  · exact ⟨_, rfl, rfl⟩
  · have h0 : Healthy id
        { NewChordNode (some id) with
          self := { PID := some ctx.Self, ID := some id }
          successor := some { PID := some ctx.Self, ID := some id } } :=
      ⟨by simp, by simp [NewChordNode], by simp [NewChordNode],
        by simp [NewChordNode, mBits], rfl⟩
    obtain ⟨nf, hrun, hs, hlen, _, _, _⟩ := healthy_run ctx id msgs _ h0 hp
    refine ⟨nf, hrun, hs, ?_⟩
    intro K
    obtain ⟨succ, hsucc⟩ := Option.ne_none_iff_exists'.mp hs
    exact findSuccessor_some nf K succ hsucc hlen

/-- C18 witness: the messages of `busyRun` all carry their payload, so the run of node 10
through `Started` and `busyRun` ends with a successor. -/
theorem successor_never_empty_witness :
    (∀ m ∈ busyRun, payloadPresent m = true)
    ∧ (∃ n0, handleAll ⟨1⟩ (NewChordNode (some 10)) [.Started] = some n0
        ∧ n0.successor = some n0.self)
    ∧ ∃ nf, handleAll ⟨1⟩ (NewChordNode (some 10)) (.Started :: busyRun) = some nf
        ∧ nf.successor ≠ none
        ∧ ∀ K, ∃ S, findSuccessor nf K = some (some S) :=
  ⟨by simp [busyRun, payloadPresent],
    successor_never_empty ⟨1⟩ 10 busyRun (by simp [busyRun, payloadPresent])⟩

/-- Only `Store` touches the storage. -/
theorem storage_frame (ctx : Context) (n n1 : ChordNode) (m : Msg) (effs : List Effect)
    (hr : Receive ctx n m = some (n1, effs)) (hm : ∀ K V, m ≠ .Store K V) :
    n1.storage = n.storage := by
  cases m with
  | Started =>
    simp only [Receive, Option.some.injEq, Prod.mk.injEq] at hr
    rw [← hr.1]
    split <;> rfl
  | Join e => simp [Receive] at hr; rw [← hr.1]
  | FindSuccessor k r =>
    simp only [Receive] at hr
    split at hr
    · simp at hr; rw [← hr.1]
    · split at hr
      · simp at hr; rw [← hr.1]
      · split at hr
        · simp at hr
        · simp at hr; rw [← hr.1]
        · simp at hr; rw [← hr.1]
  | FoundSuccessor s =>
    cases s with
    | none => simp [Receive] at hr
    | some s => simp [Receive] at hr; rw [← hr.1]
  | GetPredecessor => simp [Receive] at hr; rw [← hr.1]
  | GetPredecessorResponse p =>
    simp only [Receive] at hr
    split at hr
    · simp at hr
    · simp at hr; rw [← hr.1]
  | Notify nd =>
    simp only [Receive] at hr
    split at hr
    · simp at hr; rw [← hr.1]
    · split at hr
      · simp at hr
      · split at hr
        · simp at hr; rw [← hr.1]
        · simp at hr; rw [← hr.1]
  | Stabilize =>
    simp only [Receive] at hr
    split at hr
    · simp at hr; rw [← hr.1]
    · split at hr
      · simp at hr
      · rename_i n2 hfix
        simp at hr
        rw [← hr.1, (fixFingers_frame n n2 hfix).2.2.2.1]
  | Lookup k =>
    simp only [Receive] at hr
    split at hr
    · simp at hr
    · simp at hr; rw [← hr.1]
    · simp at hr; rw [← hr.1]
  | Store k v => exact absurd rfl (hm k v)
  | GetValue k r =>
    simp only [Receive] at hr
    split at hr
    · simp at hr; rw [← hr.1]
    · simp at hr; rw [← hr.1]
  | GetValueResponse k v f => simp [Receive] at hr; rw [← hr.1]
  | GetSuccessor => simp [Receive] at hr; rw [← hr.1]
  | GetSuccessorResponse s => simp [Receive] at hr; rw [← hr.1]
  | Other => simp [Receive] at hr; rw [← hr.1]

/-- A handler changes the storage entry of `k` only if it is a `Store` for `k` handled
while the successor carries the node's own address. -/
theorem storage_step (ctx : Context) (n n1 : ChordNode) (m : Msg) (effs : List Effect)
    (k : String) (hr : Receive ctx n m = some (n1, effs))
    (hk : n1.storage k ≠ n.storage k) :
    ∃ K V s, m = .Store K V ∧ bigString K = k ∧ n.successor = some s
      ∧ s.PID = n.self.PID := by
  by_cases hm : ∀ K V, m ≠ .Store K V
  · exact absurd (by rw [storage_frame ctx n n1 m effs hr hm]) hk
  · push_neg at hm
    obtain ⟨K, V, rfl⟩ := hm
    cases hs : n.successor with
    | none => simp [Receive, findSuccessor, hs] at hr
    | some succ =>
      simp only [Receive] at hr
      split at hr
      · simp at hr
      · simp at hr
      · rename_i S hS
        split at hr
        · rename_i hp
          simp only [Option.some.injEq, Prod.mk.injEq] at hr
          have hst : n1.storage = fun k => if k = bigString K then some V else n.storage k := by
            rw [← hr.1]
          have hkk : k = bigString K := by
            by_contra hne
            apply hk
            rw [hst]
            simp [hne]
          refine ⟨K, V, succ, rfl, hkk.symm, rfl, ?_⟩
          rcases findSuccessor_shape n K succ S hs hS with h | h
          · rw [← h]; exact hp
          · exact absurd hp h
        · simp only [Option.some.injEq, Prod.mk.injEq] at hr
          exact absurd (by rw [← hr.1]) hk

/-- Along a run, a storage entry that differs at the end from the start was written by a
`Store` handled in a state whose successor carried the node's own address. -/
theorem storage_run (ctx : Context) (k : String) (msgs : List Msg) :
    ∀ n nf : ChordNode, handleAll ctx n msgs = some nf → nf.storage k ≠ n.storage k →
      ∃ pre K V post n0 s, msgs = pre ++ .Store K V :: post
        ∧ handleAll ctx n pre = some n0 ∧ bigString K = k
        ∧ n0.successor = some s ∧ s.PID = n0.self.PID := by
  induction msgs with
  | nil =>
    intro n nf h hk
    simp only [handleAll, Option.some.injEq] at h
    exact absurd (by rw [h]) hk
  | cons m ms ih =>
    intro n nf h hk
    simp only [handleAll] at h
    split at h
    · simp at h
    · rename_i n1 effs hr
      by_cases hk1 : nf.storage k = n1.storage k
      · have hk2 : n1.storage k ≠ n.storage k := by rw [← hk1]; exact hk
        obtain ⟨K, V, s, hm, hb, hs, hp⟩ := storage_step ctx n n1 m effs k hr hk2
        exact ⟨[], K, V, ms, n, s, by simp [hm], rfl, hb, hs, hp⟩
      · obtain ⟨pre, K, V, post, n0, s, hmsgs, hpre, hb, hs, hp⟩ := ih n1 nf h hk1
        exact ⟨m :: pre, K, V, post, n0, s, by simp [hmsgs], by simp [handleAll, hr, hpre],
          hb, hs, hp⟩

/-- A handler never removes a storage entry: a present key stays present. -/
theorem storage_present_step (ctx : Context) (n n1 : ChordNode) (m : Msg)
    (effs : List Effect) (k : String) (hr : Receive ctx n m = some (n1, effs))
    (hk : n.storage k ≠ none) : n1.storage k ≠ none := by
  by_cases hm : ∀ K V, m ≠ .Store K V
  · rw [storage_frame ctx n n1 m effs hr hm]; exact hk
  · push_neg at hm
    obtain ⟨K, V, rfl⟩ := hm
    simp only [Receive] at hr
    split at hr
    · simp at hr
    · simp at hr
    · split at hr
      · simp only [Option.some.injEq, Prod.mk.injEq] at hr
        rw [← hr.1]
        simp only
        split
        · simp
        · exact hk
      · simp only [Option.some.injEq, Prod.mk.injEq] at hr
        rw [← hr.1]; exact hk

/-- Along a run a present key stays present. -/
theorem storage_present_run (ctx : Context) (k : String) (msgs : List Msg) :
    ∀ n nf : ChordNode, handleAll ctx n msgs = some nf → n.storage k ≠ none →
      nf.storage k ≠ none := by
  induction msgs with
  | nil =>
    intro n nf h hk
    simp only [handleAll, Option.some.injEq] at h
    rw [← h]; exact hk
  | cons m ms ih =>
    intro n nf h hk
    simp only [handleAll] at h
    split at h
    · simp at h
    · rename_i n1 effs hr
      exact ih n1 nf h (storage_present_step ctx n n1 m effs k hr hk)

/-- A run without `Store` leaves the storage as it was. -/
theorem storage_keep_run (ctx : Context) (msgs : List Msg) :
    ∀ n nf : ChordNode, handleAll ctx n msgs = some nf →
      (∀ m ∈ msgs, ∀ K V, m ≠ .Store K V) → nf.storage = n.storage := by
  induction msgs with
  | nil =>
    intro n nf h _
    simp only [handleAll, Option.some.injEq] at h
    rw [← h]
  | cons m ms ih =>
    intro n nf h hm
    simp only [handleAll] at h
    split at h
    · simp at h
    · rename_i n1 effs hr
      rw [ih n1 nf h (fun x hx => hm x (List.mem_cons_of_mem m hx)),
        storage_frame ctx n n1 m effs hr (hm m (List.mem_cons_self m ms))]

set_option maxRecDepth 100000 in
/-- C15 (as stated, refuted): node 10 stores key 15 while alone, then a stabilization
round gives it node 20 as predecessor and successor. In the state reached, key 15 is in
the storage, `between predecessor.ID 15 self.ID` is false, and the node is not the
singleton. -/
theorem storage_responsibility_counterexample :
    handleAll ⟨1⟩ (NewChordNode (some 10)) orphanRun = some orphanKeyNode
    ∧ orphanKeyNode.storage (bigString (some 15)) = some "v"
    ∧ orphanKeyNode.predecessor = some refTwenty
    ∧ between refTwenty.ID (some 15) orphanKeyNode.self.ID = false
    ∧ orphanKeyNode.successor ≠ some orphanKeyNode.self := by
  refine ⟨rfl, by decide, rfl, by decide, by decide⟩

/-- C15 (amended): in every state reached from a freshly created node by a run of handled
messages, every key present in the storage was written by a `Store` of that key handled
at a moment when the node's successor carried the node's own address (the node was the
singleton when it stored the key); and the entry stays: after every further run of
handled messages the key is still present, with the very same value when that run holds
no `Store` (so also after the node gets another successor, whatever its predecessor). -/
theorem stored_key_written_as_singleton (ctx : Context) (id : Option Int)
    (msgs : List Msg) (nf : ChordNode) (k : String)
    (h : handleAll ctx (NewChordNode id) msgs = some nf) (hk : nf.storage k ≠ none) :
    (∃ pre K V post n0 s, msgs = pre ++ .Store K V :: post
      ∧ handleAll ctx (NewChordNode id) pre = some n0 ∧ bigString K = k
      ∧ n0.successor = some s ∧ s.PID = n0.self.PID)
    ∧ (∀ (more : List Msg) (nf2 : ChordNode), handleAll ctx nf more = some nf2 →
        nf2.storage k ≠ none
          ∧ ((∀ m ∈ more, ∀ K V, m ≠ .Store K V) → nf2.storage k = nf.storage k)) :=
  ⟨storage_run ctx k msgs (NewChordNode id) nf h hk,
    fun more nf2 h2 =>
      ⟨storage_present_run ctx k more nf nf2 h2 hk,
        fun hm => by rw [storage_keep_run ctx more nf nf2 h2 hm]⟩⟩

set_option maxRecDepth 100000 in
/-- C15 witness: key 15 in the storage of `orphanKeyNode` was written by the `Store` of
`orphanRun`, and it stays there along every further run. -/
theorem stored_key_written_as_singleton_witness :
    (handleAll ⟨1⟩ (NewChordNode (some 10)) orphanRun = some orphanKeyNode
      ∧ orphanKeyNode.storage (bigString (some 15)) ≠ none)
    ∧ (∃ pre K V post n0 s, orphanRun = pre ++ .Store K V :: post
      ∧ handleAll ⟨1⟩ (NewChordNode (some 10)) pre = some n0
      ∧ bigString K = bigString (some 15)
      ∧ n0.successor = some s ∧ s.PID = n0.self.PID)
    ∧ (∀ (more : List Msg) (nf2 : ChordNode),
        handleAll ⟨1⟩ orphanKeyNode more = some nf2 →
        nf2.storage (bigString (some 15)) ≠ none
          ∧ ((∀ m ∈ more, ∀ K V, m ≠ .Store K V) →
              nf2.storage (bigString (some 15))
                = orphanKeyNode.storage (bigString (some 15)))) :=
  ⟨⟨rfl, by decide⟩,
    stored_key_written_as_singleton ⟨1⟩ (some 10) orphanRun orphanKeyNode
      (bigString (some 15)) rfl (by decide)⟩

/-- Every handler other than `FoundSuccessor` keeps the successor list starting with the
successor. -/
theorem head_step (ctx : Context) (n n1 : ChordNode) (m : Msg) (effs : List Effect)
    (hr : Receive ctx n m = some (n1, effs)) (hm : ∀ x, m ≠ .FoundSuccessor x)
    (hn : HeadIsSuccessor n) : HeadIsSuccessor n1 := by
  obtain ⟨s, hs, hh⟩ := hn
  have hn : HeadIsSuccessor n := ⟨s, hs, hh⟩
  cases m with
  | Started =>
    simp only [Receive, hs, Option.some.injEq, Prod.mk.injEq] at hr
    rw [if_neg (by simp)] at hr
    rw [← hr.1]
    exact ⟨s, rfl, hh⟩
  | Join e => simp [Receive] at hr; rw [← hr.1]; exact hn
  | FindSuccessor k r =>
    simp only [Receive] at hr
    split at hr
    · simp at hr; rw [← hr.1]; exact hn
    · split at hr
      · simp at hr; rw [← hr.1]; exact hn
      · split at hr
        · simp at hr
        · simp at hr; rw [← hr.1]; exact hn
        · simp at hr; rw [← hr.1]; exact hn
  | FoundSuccessor x => exact absurd rfl (hm x)
  | GetPredecessor => simp [Receive] at hr; rw [← hr.1]; exact hn
  | GetPredecessorResponse p =>
    simp only [Receive, hs, Option.some.injEq, Prod.mk.injEq] at hr
    rw [← hr.1]
    exact ⟨_, rfl, rfl⟩
  | Notify nd =>
    simp only [Receive] at hr
    split at hr
    · simp at hr; rw [← hr.1]; exact ⟨s, hs, hh⟩
    · split at hr
      · simp at hr
      · split at hr
        · simp at hr; rw [← hr.1]; exact ⟨s, hs, hh⟩
        · simp at hr; rw [← hr.1]; exact hn
  | Stabilize =>
    simp only [Receive] at hr
    split at hr
    · simp at hr; rw [← hr.1]; exact hn
    · split at hr
      · simp at hr
      · rename_i n2 hfix
        simp at hr
        obtain ⟨_, f2, _, _, f5, _⟩ := fixFingers_frame n n2 hfix
        rw [← hr.1]
        exact ⟨s, by rw [f2]; exact hs, by rw [f5]; exact hh⟩
  | Lookup k =>
    simp only [Receive] at hr
    split at hr
    · simp at hr
    · simp at hr; rw [← hr.1]; exact hn
    · simp at hr; rw [← hr.1]; exact hn
  | Store k v =>
    simp only [Receive] at hr
    split at hr
    · simp at hr
    · simp at hr
    · split at hr
      · simp at hr; rw [← hr.1]; exact ⟨s, hs, hh⟩
      · simp at hr; rw [← hr.1]; exact hn
  | GetValue k r =>
    simp only [Receive] at hr
    split at hr
    · simp at hr; rw [← hr.1]; exact hn
    · simp at hr; rw [← hr.1]; exact hn
  | GetValueResponse k v f => simp [Receive] at hr; rw [← hr.1]; exact hn
  | GetSuccessor => simp [Receive] at hr; rw [← hr.1]; exact hn
  | GetSuccessorResponse x =>
    simp only [Receive, Option.some.injEq, Prod.mk.injEq] at hr
    rw [← hr.1]
    refine ⟨s, hs, ?_⟩
    cases hl : n.successorList with
    | nil => rw [hl] at hh; simp at hh
    | cons a tl =>
      rw [hl] at hh
      simp only [List.head?_cons, Option.some.injEq] at hh
      subst hh
      simp only [List.cons_append]
      split <;> simp
  | Other => simp [Receive] at hr; rw [← hr.1]; exact hn

/-- Along a run without `FoundSuccessor` the successor list keeps starting with the
successor. -/
theorem head_run (ctx : Context) (msgs : List Msg) :
    ∀ n nf : ChordNode, handleAll ctx n msgs = some nf →
      (∀ m ∈ msgs, ∀ x, m ≠ .FoundSuccessor x) → HeadIsSuccessor n → HeadIsSuccessor nf := by
  induction msgs with
  | nil =>
    intro n nf h _ hn
    simp only [handleAll, Option.some.injEq] at h
    rw [← h]; exact hn
  | cons m ms ih =>
    intro n nf h hm hn
    simp only [handleAll] at h
    split at h
    · simp at h
    · rename_i n1 effs hr
      exact ih n1 nf h (fun x hx => hm x (List.mem_cons_of_mem m hx))
        (head_step ctx n n1 m effs hr (hm m (List.mem_cons_self m ms)) hn)

set_option maxRecDepth 100000 in
/-- C16 (as stated, refuted): after its first stabilization a node alone in its ring lists
itself twice (`duplicateRun`); and after a stabilization answer followed by
`FoundSuccessor` the non-empty successor list does not start with the current successor
(`staleHeadRun`). -/
theorem successorList_invariant_counterexample :
    (handleAll ⟨1⟩ (NewChordNode (some 10)) duplicateRun = some twiceListedNode
      ∧ twiceListedNode.successorList = [some refTen, some refTen]
      ∧ ¬ twiceListedNode.successorList.Nodup)
    ∧ (handleAll ⟨1⟩ (NewChordNode (some 10)) staleHeadRun = some staleHeadNode
      ∧ staleHeadNode.successorList ≠ []
      ∧ staleHeadNode.successorList.head? ≠ some staleHeadNode.successor) := by
  refine ⟨⟨rfl, rfl, by decide⟩, ⟨rfl, by decide, by decide⟩⟩

/-- C16 (amended): once a `GetPredecessorResponse` has been handled, and as long as no
`FoundSuccessor` is handled after it, the successor is set and the successor list is
non-empty with the current successor as its first entry (uniqueness of the entries is
not claimed). -/
theorem successorList_head_after_stabilize (ctx : Context) (n0 nf : ChordNode)
    (P : Option NodeInfo) (post : List Msg)
    (h : handleAll ctx n0 (.GetPredecessorResponse P :: post) = some nf)
    (hpost : ∀ m ∈ post, ∀ x, m ≠ .FoundSuccessor x) :
    ∃ s, nf.successor = some s ∧ nf.successorList.head? = some (some s) := by
  simp only [handleAll] at h
  split at h
  · simp at h
  · rename_i n1 effs hr
    have h1 : HeadIsSuccessor n1 := by
      simp only [Receive] at hr
      split at hr
      · simp at hr
      · simp only [Option.some.injEq, Prod.mk.injEq] at hr
        rw [← hr.1]
        exact ⟨_, rfl, rfl⟩
    exact head_run ctx post n1 nf h hpost h1

set_option maxRecDepth 100000 in
/-- C16 witness: `singletonNode` handles a stabilization answer and then the report of its
successor's successor; the list `[10, 10]` starts with the successor 10. -/
theorem successorList_head_after_stabilize_witness :
    (handleAll ⟨1⟩ singletonNode
        [.GetPredecessorResponse none, .GetSuccessorResponse (some refTen)]
        = some twiceListedNode
      ∧ ∀ m ∈ [Msg.GetSuccessorResponse (some refTen)], ∀ x, m ≠ .FoundSuccessor x)
    ∧ ∃ s, twiceListedNode.successor = some s
        ∧ twiceListedNode.successorList.head? = some (some s) :=
  ⟨⟨rfl, by simp⟩,
    successorList_head_after_stabilize ⟨1⟩ singletonNode twiceListedNode none
      [.GetSuccessorResponse (some refTen)] rfl (by simp)⟩


/-! ## Two-node join -/

/-- The right endpoint of an arc lies on it. -/
theorem between_right_end (l r : Int) : between (some l) (some r) (some r) = true := by
  by_cases h : l < r <;> simp [between, h]

/-- The left endpoint of an arc between distinct points does not lie on it. -/
theorem between_left_end (l r : Int) (h : l ≠ r) :
    between (some l) (some l) (some r) = false := by
  by_cases h1 : l < r
  · simp [between, h1]
  · have h2 : ¬ l ≤ r := by omega
    simp [between, h1, h2]

/-- Nothing in flight: the delivery loop stops. -/
theorem drain_nil (b j : PID) (pick : Nat → Nat) (fuel : Nat) (B J : ChordNode) :
    drain b j pick fuel ⟨B, J, []⟩ = some ⟨B, J, []⟩ := by
  cases fuel <;> rfl

/-- One message in flight: it is the one delivered. -/
theorem drain_one (b j : PID) (pick : Nat → Nat) (fuel : Nat) (B J : ChordNode)
    (e : Envelope) :
    drain b j pick (fuel + 1) ⟨B, J, [e]⟩
      = (deliverAt b j ⟨B, J, [e]⟩ 0).bind (drain b j pick fuel) := by
  simp only [drain, List.length_singleton, Nat.mod_one]
  cases deliverAt b j ⟨B, J, [e]⟩ 0 <;> rfl

/-- Two messages in flight: either may be delivered next. -/
theorem drain_two (b j : PID) (pick : Nat → Nat) (fuel : Nat) (B J : ChordNode)
    (e1 e2 : Envelope) :
    drain b j pick (fuel + 1) ⟨B, J, [e1, e2]⟩
      = if pick fuel % 2 = 0 then (deliverAt b j ⟨B, J, [e1, e2]⟩ 0).bind (drain b j pick fuel)
        else (deliverAt b j ⟨B, J, [e1, e2]⟩ 1).bind (drain b j pick fuel) := by
  have hlen : [e1, e2].length = 2 := rfl
  simp only [drain, hlen]
  rcases Nat.mod_two_eq_zero_or_one (pick fuel) with h | h
  · rw [h, if_pos rfl]
    cases deliverAt b j ⟨B, J, [e1, e2]⟩ 0 <;> rfl
  · rw [h, if_neg (by decide)]
    cases deliverAt b j ⟨B, J, [e1, e2]⟩ 1 <;> rfl

/-- Delivery of the first in-flight message when it is addressed to `B`. -/
theorem deliverAt_zero_B (b j : PID) (B J : ChordNode) (s : Option PID) (m : Msg)
    (rest : List Envelope) :
    deliverAt b j ⟨B, J, ⟨some b, s, m⟩ :: rest⟩ 0
      = (Receive ⟨b⟩ B m).bind
          (fun r => some ⟨r.1, J, rest ++ r.2.flatMap (dispatch b s)⟩) := by
  simp only [deliverAt, List.getElem?_cons_zero, if_true, List.eraseIdx_cons_zero]
  cases Receive ⟨b⟩ B m <;> rfl

/-- Delivery of the first in-flight message when it is addressed to `J`. -/
theorem deliverAt_zero_J (b j : PID) (hjb : j ≠ b) (B J : ChordNode) (s : Option PID)
    (m : Msg) (rest : List Envelope) :
    deliverAt b j ⟨B, J, ⟨some j, s, m⟩ :: rest⟩ 0
      = (Receive ⟨j⟩ J m).bind
          (fun r => some ⟨B, r.1, rest ++ r.2.flatMap (dispatch j s)⟩) := by
  have h : ¬ (some j = some b) := by simpa using hjb
  simp only [deliverAt, List.getElem?_cons_zero, h, if_false, if_true,
    List.eraseIdx_cons_zero]
  cases Receive ⟨j⟩ J m <;> rfl

/-- Delivery of the second in-flight message when it is addressed to `B`. -/
theorem deliverAt_one_B (b j : PID) (B J : ChordNode) (e : Envelope) (s : Option PID)
    (m : Msg) (rest : List Envelope) :
    deliverAt b j ⟨B, J, e :: ⟨some b, s, m⟩ :: rest⟩ 1
      = (Receive ⟨b⟩ B m).bind
          (fun r => some ⟨r.1, J, e :: rest ++ r.2.flatMap (dispatch b s)⟩) := by
  simp only [deliverAt, List.getElem?_cons_succ, List.getElem?_cons_zero, if_true,
    List.eraseIdx_cons_succ, List.eraseIdx_cons_zero]
  cases Receive ⟨b⟩ B m <;> rfl

/-- Delivery of the second in-flight message when it is addressed to `J`. -/
theorem deliverAt_one_J (b j : PID) (hjb : j ≠ b) (B J : ChordNode) (e : Envelope)
    (s : Option PID) (m : Msg) (rest : List Envelope) :
    deliverAt b j ⟨B, J, e :: ⟨some j, s, m⟩ :: rest⟩ 1
      = (Receive ⟨j⟩ J m).bind
          (fun r => some ⟨B, r.1, e :: rest ++ r.2.flatMap (dispatch j s)⟩) := by
  have h : ¬ (some j = some b) := by simpa using hjb
  simp only [deliverAt, List.getElem?_cons_succ, List.getElem?_cons_zero, h, if_false,
    if_true, List.eraseIdx_cons_succ, List.eraseIdx_cons_zero]
  cases Receive ⟨j⟩ J m <;> rfl
/-- A tick of `J` while its successor is `B`: whatever the delivery order, `J` keeps `B` as
successor and `B` ends with `J` as predecessor. -/
theorem tick_J_keeps (b j : PID) (idB idJ : Int) (hpid : b ≠ j) (hid : idB ≠ idJ)
    (pick : Nat → Nat) (net : TwoNodes) (Bs Bp Jp : Option NodeInfo)
    (hnet : Quiescent b j idB idJ Bs Bp (some ⟨some b, some idB⟩) Jp net)
    (hBp : Bp = none ∨ Bp = some ⟨some b, some idB⟩ ∨ Bp = some ⟨some j, some idJ⟩) :
    ∃ net1, tick b j pick j net = some net1
      ∧ Quiescent b j idB idJ Bs (some ⟨some j, some idJ⟩) (some ⟨some b, some idB⟩) Jp
          net1 := by
  obtain ⟨B, J, q⟩ := net
  obtain ⟨⟨hBself, hBlen, hB0, hB1⟩, ⟨hJself, hJlen, hJ0, hJ1⟩, hq, hBs, hBpe, hJs, hJp⟩ :=
    hnet
  simp only at hBself hBlen hB0 hB1 hJself hJlen hJ0 hJ1 hq hBs hBpe hJs hJp
  subst hq
  obtain ⟨J1, hfix, hlt⟩ := fixFingers_succeeds J idJ hJ0 hJ1 hJlen (by rw [hJself])
  obtain ⟨f1, f2, f3, _, _, f6, f7, _⟩ := fixFingers_frame J J1 hfix
  rw [hJself] at f1
  rw [hJs] at f2
  rw [hJp] at f3
  rw [hJlen] at f6
  have hjb : j ≠ b := fun h => hpid h.symm
  have e1 := between_right_end idJ idB
  have e2 := between_left_end idJ idB (fun h => hid h.symm)
  have e3 := between_self_arc idB idJ
  rcases hBp with hBp | hBp | hBp <;>
    rw [hBp] at hBpe <;>
    simp [tick, drain_nil, drain_one, drain_two, deliverAt_zero_B, deliverAt_zero_J b j hjb,
      deliverAt_one_B, deliverAt_one_J b j hjb, Receive, dispatch, hfix, hJs, hBself, f1, f2,
      hBpe, e1, e2, e3] <;>
    split_ifs <;>
    exact ⟨_, rfl, by simp [Quiescent, Sound, hBself, hBlen, hB0, hB1, f6, f7, hlt, f3,
      hBpe, hBs]⟩

/-- A tick of `B` while it is its own successor and has no predecessor: it ends as its own
predecessor. -/
theorem tick_B_alone (b j : PID) (idB idJ : Int) (hpid : b ≠ j)
    (pick : Nat → Nat) (net : TwoNodes) (Js Jp : Option NodeInfo)
    (hnet : Quiescent b j idB idJ (some ⟨some b, some idB⟩) none Js Jp net) :
    ∃ net1, tick b j pick b net = some net1
      ∧ Quiescent b j idB idJ (some ⟨some b, some idB⟩) (some ⟨some b, some idB⟩) Js Jp
          net1 := by
  obtain ⟨B, J, q⟩ := net
  obtain ⟨⟨hBself, hBlen, hB0, hB1⟩, ⟨hJself, hJlen, hJ0, hJ1⟩, hq, hBs, hBpe, hJs, hJp⟩ :=
    hnet
  simp only at hBself hBlen hB0 hB1 hJself hJlen hJ0 hJ1 hq hBs hBpe hJs hJp
  subst hq
  obtain ⟨B1, hfix, hlt⟩ := fixFingers_succeeds B idB hB0 hB1 hBlen (by rw [hBself])
  obtain ⟨f1, f2, f3, _, _, f6, f7, _⟩ := fixFingers_frame B B1 hfix
  rw [hBself] at f1
  rw [hBs] at f2
  rw [hBpe] at f3
  rw [hBlen] at f6
  have hjb : j ≠ b := fun h => hpid h.symm
  simp [tick, drain_nil, drain_one, drain_two, deliverAt_zero_B, deliverAt_zero_J b j hjb,
    deliverAt_one_B, deliverAt_one_J b j hjb, Receive, dispatch, hfix, hBs, f1, f2, f3]
  split_ifs <;>
    exact ⟨_, rfl, by simp [Quiescent, Sound, hJself, hJlen, hJ0, hJ1, f6, f7, hlt, hJs,
      hJp]⟩

/-- A tick of `B` while it is its own successor and `J` is its predecessor: `B` adopts `J`
as successor and `J` ends with `B` as predecessor. -/
theorem tick_B_adopts (b j : PID) (idB idJ : Int) (hpid : b ≠ j) (hid : idB ≠ idJ)
    (pick : Nat → Nat) (net : TwoNodes) (Js Jp : Option NodeInfo)
    (hnet : Quiescent b j idB idJ (some ⟨some b, some idB⟩) (some ⟨some j, some idJ⟩)
      Js Jp net)
    (hJp : Jp = none ∨ Jp = some ⟨some b, some idB⟩) :
    ∃ net1, tick b j pick b net = some net1
      ∧ Quiescent b j idB idJ (some ⟨some j, some idJ⟩) (some ⟨some j, some idJ⟩) Js
          (some ⟨some b, some idB⟩) net1 := by
  obtain ⟨B, J, q⟩ := net
  obtain ⟨⟨hBself, hBlen, hB0, hB1⟩, ⟨hJself, hJlen, hJ0, hJ1⟩, hq, hBs, hBpe, hJs, hJpe⟩ :=
    hnet
  simp only at hBself hBlen hB0 hB1 hJself hJlen hJ0 hJ1 hq hBs hBpe hJs hJpe
  subst hq
  obtain ⟨B1, hfix, hlt⟩ := fixFingers_succeeds B idB hB0 hB1 hBlen (by rw [hBself])
  obtain ⟨f1, f2, f3, _, _, f6, f7, _⟩ := fixFingers_frame B B1 hfix
  rw [hBself] at f1
  rw [hBs] at f2
  rw [hBpe] at f3
  rw [hBlen] at f6
  have hjb : j ≠ b := fun h => hpid h.symm
  have e1 := between_self_arc idB idJ
  have e2 := between_left_end idB idJ hid
  rcases hJp with hJp | hJp <;>
    rw [hJp] at hJpe <;>
    simp [tick, drain_nil, drain_one, drain_two, deliverAt_zero_B, deliverAt_zero_J b j hjb,
      deliverAt_one_B, deliverAt_one_J b j hjb, Receive, dispatch, hfix, hBs, hJself, f1, f2,
      f3, hJpe, e1, e2] <;>
    split_ifs <;>
    exact ⟨_, rfl, by simp [Quiescent, Sound, hJself, hJlen, hJ0, hJ1, f6, f7, hlt, f3,
      hJpe, hJs]⟩

/-- A tick of `B` once the ring is formed (`J` is its successor and it is the predecessor
of `J`): nothing changes. -/
theorem tick_B_settled (b j : PID) (idB idJ : Int) (hpid : b ≠ j) (hid : idB ≠ idJ)
    (pick : Nat → Nat) (net : TwoNodes) (Bp Js : Option NodeInfo)
    (hnet : Quiescent b j idB idJ (some ⟨some j, some idJ⟩) Bp Js
      (some ⟨some b, some idB⟩) net) :
    ∃ net1, tick b j pick b net = some net1
      ∧ Quiescent b j idB idJ (some ⟨some j, some idJ⟩) Bp Js
          (some ⟨some b, some idB⟩) net1 := by
  obtain ⟨B, J, q⟩ := net
  obtain ⟨⟨hBself, hBlen, hB0, hB1⟩, ⟨hJself, hJlen, hJ0, hJ1⟩, hq, hBs, hBpe, hJs, hJpe⟩ :=
    hnet
  simp only at hBself hBlen hB0 hB1 hJself hJlen hJ0 hJ1 hq hBs hBpe hJs hJpe
  subst hq
  obtain ⟨B1, hfix, hlt⟩ := fixFingers_succeeds B idB hB0 hB1 hBlen (by rw [hBself])
  obtain ⟨f1, f2, f3, _, _, f6, f7, _⟩ := fixFingers_frame B B1 hfix
  rw [hBself] at f1
  rw [hBs] at f2
  rw [hBpe] at f3
  rw [hBlen] at f6
  have hjb : j ≠ b := fun h => hpid h.symm
  have e2 := between_left_end idB idJ hid
  simp [tick, drain_nil, drain_one, drain_two, deliverAt_zero_B, deliverAt_zero_J b j hjb,
    deliverAt_one_B, deliverAt_one_J b j hjb, Receive, dispatch, hfix, hBs, hJself, f1, f2,
    f3, hJpe, e2]
  split_ifs <;>
    exact ⟨_, rfl, by simp [Quiescent, Sound, hJself, hJlen, hJ0, hJ1, f6, f7, hlt, f3,
      hJpe, hJs]⟩

/-- The join exchange: `J` asks `B` for the successor of its identifier, `B` (alone in its
ring) answers with itself, and `J` adopts `B` as successor. -/
theorem join_delivered (b j : PID) (idB idJ : Int) (hpid : b ≠ j) (pick : Nat → Nat)
    (B J : ChordNode) (hB : Sound b idB B) (hJ : Sound j idJ J)
    (hBs : B.successor = some ⟨some b, some idB⟩) (hBp : B.predecessor = none)
    (hJp : J.predecessor = none) :
    ∃ net0, drain b j pick 4 ⟨B, J, [⟨some j, none, .Join (some b)⟩]⟩ = some net0
      ∧ Quiescent b j idB idJ (some ⟨some b, some idB⟩) none (some ⟨some b, some idB⟩)
          none net0 := by
  obtain ⟨hBself, hBlen, hB0, hB1⟩ := hB
  obtain ⟨hJself, hJlen, hJ0, hJ1⟩ := hJ
  have hjb : j ≠ b := fun h => hpid h.symm
  have e1 := between_self_arc idB idJ
  simp [drain_nil, drain_one, deliverAt_zero_B, deliverAt_zero_J b j hjb, Receive, dispatch,
    hBs, hBself, hJself, e1]
  simp [Quiescent, Sound, hBself, hBlen, hB0, hB1, hJlen, hJ0, hJ1, hBs, hBp, hJp]

/-- The first stabilization round after the join, in either order. -/
theorem first_round (b j : PID) (idB idJ : Int) (hpid : b ≠ j) (hid : idB ≠ idJ)
    (pick1 pick2 : Nat → Nat) (bFirst : Bool) (net : TwoNodes)
    (hnet : Quiescent b j idB idJ (some ⟨some b, some idB⟩) none (some ⟨some b, some idB⟩)
      none net) :
    ∃ net1, stabilizeRound b j pick1 pick2 bFirst net = some net1
      ∧ (Quiescent b j idB idJ (some ⟨some b, some idB⟩) (some ⟨some j, some idJ⟩)
            (some ⟨some b, some idB⟩) none net1
          ∨ Quiescent b j idB idJ (some ⟨some j, some idJ⟩) (some ⟨some j, some idJ⟩)
            (some ⟨some b, some idB⟩) (some ⟨some b, some idB⟩) net1) := by
  cases bFirst with
  | true =>
    obtain ⟨n1, h1, q1⟩ := tick_B_alone b j idB idJ hpid pick1 net _ _ hnet
    obtain ⟨n2, h2, q2⟩ := tick_J_keeps b j idB idJ hpid hid pick2 n1 _ _ _ q1
      (Or.inr (Or.inl rfl))
    exact ⟨n2, by simp [stabilizeRound, h1, h2], Or.inl q2⟩
  | false =>
    obtain ⟨n1, h1, q1⟩ := tick_J_keeps b j idB idJ hpid hid pick1 net _ _ _ hnet
      (Or.inl rfl)
    obtain ⟨n2, h2, q2⟩ := tick_B_adopts b j idB idJ hpid hid pick2 n1 _ _ q1 (Or.inl rfl)
    exact ⟨n2, by simp [stabilizeRound, h1, h2], Or.inr q2⟩

/-- The second stabilization round, in either order, from either outcome of the first. -/
theorem second_round (b j : PID) (idB idJ : Int) (hpid : b ≠ j) (hid : idB ≠ idJ)
    (pick1 pick2 : Nat → Nat) (bFirst : Bool) (net : TwoNodes)
    (hnet : Quiescent b j idB idJ (some ⟨some b, some idB⟩) (some ⟨some j, some idJ⟩)
            (some ⟨some b, some idB⟩) none net
          ∨ Quiescent b j idB idJ (some ⟨some j, some idJ⟩) (some ⟨some j, some idJ⟩)
            (some ⟨some b, some idB⟩) (some ⟨some b, some idB⟩) net) :
    ∃ net1, stabilizeRound b j pick1 pick2 bFirst net = some net1
      ∧ Quiescent b j idB idJ (some ⟨some j, some idJ⟩) (some ⟨some j, some idJ⟩)
          (some ⟨some b, some idB⟩) (some ⟨some b, some idB⟩) net1 := by
  rcases hnet with hnet | hnet
  · cases bFirst with
    | true =>
      obtain ⟨n1, h1, q1⟩ := tick_B_adopts b j idB idJ hpid hid pick1 net _ _ hnet
        (Or.inl rfl)
      obtain ⟨n2, h2, q2⟩ := tick_J_keeps b j idB idJ hpid hid pick2 n1 _ _ _ q1
        (Or.inr (Or.inr rfl))
      exact ⟨n2, by simp [stabilizeRound, h1, h2], q2⟩
    | false =>
      obtain ⟨n1, h1, q1⟩ := tick_J_keeps b j idB idJ hpid hid pick1 net _ _ _ hnet
        (Or.inr (Or.inr rfl))
      obtain ⟨n2, h2, q2⟩ := tick_B_adopts b j idB idJ hpid hid pick2 n1 _ _ q1
        (Or.inl rfl)
      exact ⟨n2, by simp [stabilizeRound, h1, h2], q2⟩
  · cases bFirst with
    | true =>
      obtain ⟨n1, h1, q1⟩ := tick_B_settled b j idB idJ hpid hid pick1 net _ _ hnet
      obtain ⟨n2, h2, q2⟩ := tick_J_keeps b j idB idJ hpid hid pick2 n1 _ _ _ q1
        (Or.inr (Or.inr rfl))
      exact ⟨n2, by simp [stabilizeRound, h1, h2], q2⟩
    | false =>
      obtain ⟨n1, h1, q1⟩ := tick_J_keeps b j idB idJ hpid hid pick1 net _ _ _ hnet
        (Or.inr (Or.inr rfl))
      obtain ⟨n2, h2, q2⟩ := tick_B_settled b j idB idJ hpid hid pick2 n1 _ _ q1
      exact ⟨n2, by simp [stabilizeRound, h1, h2], q2⟩

/-- C14: two-node join converges. For two started nodes `B` and `J` with distinct
addresses and distinct identifiers, after `J` handles `Join` with the address of `B` and
the exchange it causes is delivered, and after two stabilization rounds in which each node
handles one `Stabilize` per round (in either order within each round, and with the
requests, responses and notifications it causes delivered in any order before the next
`Stabilize`), the run has not panicked, nothing is in flight, and `B.successor = J`,
`J.successor = B`, `B.predecessor = J`, `J.predecessor = B`. -/
theorem two_node_join_converges (b j : PID) (idB idJ : Int) (hpid : b ≠ j)
    (hid : idB ≠ idJ) (bFirst1 bFirst2 : Bool) (pick : Nat → Nat → Nat) :
    ∃ net, joinThenStabilize b j idB idJ bFirst1 bFirst2 pick = some net
      ∧ net.inflight = []
      ∧ net.B.self = ⟨some b, some idB⟩ ∧ net.J.self = ⟨some j, some idJ⟩
      ∧ net.B.successor = some net.J.self ∧ net.J.successor = some net.B.self
      ∧ net.B.predecessor = some net.J.self ∧ net.J.predecessor = some net.B.self := by
  have hB0 : handleAll ⟨b⟩ (NewChordNode (some idB)) [.Started]
      = some { NewChordNode (some idB) with
               self := ⟨some b, some idB⟩, successor := some ⟨some b, some idB⟩ } := rfl
  have hJ0 : handleAll ⟨j⟩ (NewChordNode (some idJ)) [.Started]
      = some { NewChordNode (some idJ) with
               self := ⟨some j, some idJ⟩, successor := some ⟨some j, some idJ⟩ } := rfl
  obtain ⟨net0, h0, q0⟩ := join_delivered b j idB idJ hpid (pick 0) _ _
    (show Sound b idB { NewChordNode (some idB) with
        self := ⟨some b, some idB⟩, successor := some ⟨some b, some idB⟩ } from
      ⟨rfl, by simp [NewChordNode], by simp [NewChordNode], by simp [NewChordNode, mBits]⟩)
    (show Sound j idJ { NewChordNode (some idJ) with
        self := ⟨some j, some idJ⟩, successor := some ⟨some j, some idJ⟩ } from
      ⟨rfl, by simp [NewChordNode], by simp [NewChordNode], by simp [NewChordNode, mBits]⟩)
    rfl rfl rfl
  obtain ⟨net1, h1, q1⟩ := first_round b j idB idJ hpid hid (pick 1) (pick 2) bFirst1 net0 q0
  obtain ⟨net2, h2, q2⟩ :=
    second_round b j idB idJ hpid hid (pick 3) (pick 4) bFirst2 net1 q1
  obtain ⟨⟨hBself, _⟩, ⟨hJself, _⟩, hq, hBs, hBp, hJs, hJp⟩ := q2
  refine ⟨net2, ?_, hq, hBself, hJself, ?_, ?_, ?_, ?_⟩
  · simp [joinThenStabilize, hB0, hJ0, h0, h1, h2]
  · rw [hBs, hJself]
  · rw [hJs, hBself]
  · rw [hBp, hJself]
  · rw [hJp, hBself]

/-- C14 witness: the two nodes of `main.go` (identifiers `Hash("bootstrap")` and
`Hash("node42")`, addresses 1 and 2), `J` ticking first in round one and `B` first in
round two, the oldest message in flight delivered first. -/
theorem two_node_join_converges_witness :
    ((1 : PID) ≠ 2 ∧ hashBootstrap ≠ hashNode42)
    ∧ ∃ net, joinThenStabilize 1 2 hashBootstrap hashNode42 false true (fun _ _ => 0)
          = some net
      ∧ net.inflight = []
      ∧ net.B.self = ⟨some 1, some hashBootstrap⟩ ∧ net.J.self = ⟨some 2, some hashNode42⟩
      ∧ net.B.successor = some net.J.self ∧ net.J.successor = some net.B.self
      ∧ net.B.predecessor = some net.J.self ∧ net.J.predecessor = some net.B.self :=
  ⟨⟨by decide, by decide⟩,
    two_node_join_converges 1 2 hashBootstrap hashNode42 (by decide) (by decide) false true
      (fun _ _ => 0)⟩

end Chord
